import Mathlib

/-! Verification of transcode-orchestrator: the provider abstraction and
job-lifecycle layer.

A shallow embedding of

* `provider/bitmovin/internal/container/progressive_webm.go`
  (`ProgressiveWebMStatusEnricher.Enrich`),
* `provider/bitmovin/internal/configuration/h264.go`
  (`H264.Create`, `H264.Get`, `H264.Delete`),
* `service/service.go` (`JSONService.JSONMiddleware`, `jsonErr`),
* the status translator of `provider/encodingcom` (`statusMap`), known through
  `TestJobStatusMap` of `encodingcom_test.go`.

Remote services and the local store are explicit state-passing interfaces:
every call takes the current state of the collaborator and returns its answer
together with the next state.  Each embedded function also returns the list
of calls it made, in order.  Loops whose exit depends on the answers of a
remote service take a fuel argument bounding the number of iterations.
-/

/-! ## Go values shared by the packages -/

/-- Go `error` values, kept structurally: the constructors record how the
source builds them. -/
inductive GoError where
  /-- An error produced by a collaborator (remote API, store, endpoint). -/
  | base (msg : String)
  /-- The value of `errors.Wrap(cause, msg)`. -/
  | wrap (cause : GoError) (msg : String)
  /-- The value of `errors.Wrapf(cause, format, args...)`. -/
  | wrapf (cause : GoError) (format : String) (args : List String)
  /-- The value of `fmt.Errorf(format, cause)` with a `%w` verb. -/
  | errorf (format : String) (cause : GoError)
  deriving DecidableEq, Repr

/-- Go conversion `int32(n)` of an integer: two's complement wrap-around. -/
def toInt32 (n : Int) : Int := (n + 2 ^ 31) % 2 ^ 32 - 2 ^ 31

namespace container

/-! ## `provider/bitmovin/internal/container/progressive_webm.go` -/

/-- The fields of `model.ProgressiveWebmMuxing` read by `Enrich`. -/
structure ProgressiveWebmMuxing where
  Id : String
  Filename : String
  deriving DecidableEq, Repr

/-- One entry of `info.VideoTracks`; the dimensions are nullable. -/
structure MuxingInformationVideo where
  FrameHeight : Option Int
  FrameWidth : Option Int
  Codec : String
  deriving DecidableEq, Repr

/-- The fields of `model.ProgressiveWebmMuxingInformation` read by `Enrich`. -/
structure ProgressiveWebmMuxingInformation where
  ContainerFormat : String
  FileSize : Option Int
  VideoTracks : List MuxingInformationVideo
  deriving DecidableEq, Repr

/-- Record `provider.OutputFile`. -/
structure OutputFile where
  Path : String
  Container : String
  VideoCodec : String
  Height : Int
  Width : Int
  FileSize : Int
  deriving DecidableEq, Repr

/-- Record `provider.JobOutput`: destination root and ordered file list. -/
structure JobOutput where
  Destination : String
  Files : List OutputFile
  deriving DecidableEq, Repr

/-- Record `provider.JobStatus`. -/
structure JobStatus where
  ProviderJobID : String
  ProviderName : String
  Status : String
  StatusMessage : String
  ProviderStatus : List (String × String)
  Output : JobOutput
  deriving DecidableEq, Repr

/-- Record `query.ProgressiveWebmMuxingListQueryParams`, as filled by the
callback passed to `List`. -/
structure ProgressiveWebmMuxingListQueryParams where
  Offset : Int
  Limit : Int
  deriving DecidableEq, Repr

/-- The paginated answer of `ProgressiveWebm.List`. -/
structure Pagination where
  TotalCount : Option Int
  Items : List ProgressiveWebmMuxing
  deriving DecidableEq, Repr

/-- The two remote operations `Enrich` uses, over a remote state `σ`. -/
structure BitmovinApi (σ : Type) where
  List : σ → String → ProgressiveWebmMuxingListQueryParams →
    Except GoError Pagination × σ
  InformationGet : σ → String → String →
    Except GoError ProgressiveWebmMuxingInformation × σ

/-- A remote call made by `Enrich`. -/
inductive Call where
  | List (jobID : String) (params : ProgressiveWebmMuxingListQueryParams)
  | InformationGet (jobID : String) (muxingID : String)
  deriving DecidableEq, Repr

/-- Modelled from the spec: helper `int64Value` of the package is not among
the sources; "numeric fields defaulting to zero when absent/null upstream". -/
def int64Value (p : Option Int) : Int :=
  match p with
  | none => 0
  | some v => v

/-- Modelled from the spec: helper `dimensionToInt64` of the package is not
among the sources; a null dimension is zero, any other is widened. -/
def dimensionToInt64 (p : Option Int) : Int :=
  match p with
  | none => 0
  | some v => v

/-- The variables of the page-draining loop (lines 53-66). -/
structure DrainState (σ : Type) where
  world : σ
  totalCount : Int
  muxings : List ProgressiveWebmMuxing
  calls : List Call

/-- Outcome of one evaluation of the loop at line 55. -/
inductive DrainStep (σ : Type) where
  /-- `List` answered; the loop condition is evaluated again. -/
  | page (st : DrainState σ)
  /-- The loop condition is false. -/
  | done (st : DrainState σ)
  /-- `List` failed: the `return` at line 61. -/
  | failed (err : GoError) (st : DrainState σ)

/-- One evaluation of the loop condition and, if it holds, of the body. -/
def drainStep {σ : Type} (api : BitmovinApi σ) (jobID : String)
    (st : DrainState σ) : DrainStep σ :=
  if (st.muxings.length : Int) < st.totalCount then
    let params : ProgressiveWebmMuxingListQueryParams :=
      { Offset := toInt32 st.muxings.length, Limit := 100 }
    match api.List st.world jobID params with
    | (.error err, w) =>
      .failed (.wrap err "retrieving progressive webm muxings from the Bitmovin API")
        { st with world := w, calls := st.calls ++ [Call.List jobID params] }
    | (.ok resp, w) =>
      .page { world := w
              totalCount := int64Value resp.TotalCount
              muxings := st.muxings ++ resp.Items
              calls := st.calls ++ [Call.List jobID params] }
  else .done st

/-- The page-draining loop; `fuel` bounds the evaluations of its condition.
`none` means the loop is still running when the fuel is spent. -/
def drain {σ : Type} (api : BitmovinApi σ) (jobID : String) :
    Nat → DrainState σ → Option (Except (GoError × DrainState σ) (DrainState σ))
  | 0, _ => none
  | fuel + 1, st =>
    match drainStep api jobID st with
    | .page st1 => drain api jobID fuel st1
    | .done st1 => some (.ok st1)
    | .failed err st1 => some (.error (err, st1))

/-- State of the loop after `n` successful pages, if it gets that far. -/
def afterPages {σ : Type} (api : BitmovinApi σ) (jobID : String) :
    Nat → DrainState σ → Option (DrainState σ)
  | 0, st => some st
  | n + 1, st =>
    match drainStep api jobID st with
    | .page st1 => afterPages api jobID n st1
    | _ => none

/-- The `OutputFile` built at lines 74-91 from a muxing and its information. -/
def outputFile (destination : String) (muxing : ProgressiveWebmMuxing)
    (info : ProgressiveWebmMuxingInformation) : OutputFile :=
  let (height, width, videoCodec) :=
    match info.VideoTracks with
    | [] => ((0 : Int), (0 : Int), "")
    | track :: _ =>
      (dimensionToInt64 track.FrameHeight, dimensionToInt64 track.FrameWidth, track.Codec)
  { Path := destination ++ muxing.Filename
    Container := info.ContainerFormat
    FileSize := int64Value info.FileSize
    VideoCodec := videoCodec
    Width := width
    Height := height }

/-- What `Enrich` returns, with the final remote state and the calls made. -/
structure EnrichResult (σ : Type) where
  status : JobStatus
  err : Option GoError
  world : σ
  calls : List Call

/-- The `range` loop of lines 68-92 followed by the `return` of line 94. -/
def enrichLoop {σ : Type} (api : BitmovinApi σ) :
    List ProgressiveWebmMuxing → σ → JobStatus → List Call → EnrichResult σ
  | [], w, s, calls => { status := s, err := none, world := w, calls := calls }
  | muxing :: rest, w, s, calls =>
    match api.InformationGet w s.ProviderJobID muxing.Id with
    | (.error err, w1) =>
      { status := s
        err := some (.wrapf err "retrieving muxing information with ID %q" [muxing.Id])
        world := w1
        calls := calls ++ [Call.InformationGet s.ProviderJobID muxing.Id] }
    | (.ok info, w1) =>
      enrichLoop api rest w1
        { s with Output := { s.Output with
            Files := s.Output.Files ++ [outputFile s.Output.Destination muxing info] } }
        (calls ++ [Call.InformationGet s.ProviderJobID muxing.Id])

/-- Record `ProgressiveWebMStatusEnricher`. -/
structure ProgressiveWebMStatusEnricher (σ : Type) where
  api : BitmovinApi σ

/-- Function `NewProgressiveWebMStatusEnricher`. -/
def NewProgressiveWebMStatusEnricher {σ : Type} (api : BitmovinApi σ) :
    ProgressiveWebMStatusEnricher σ :=
  { api := api }

/-- Method `ProgressiveWebMStatusEnricher.Enrich`.  The conversion
`int64(len(muxings))` of line 55 is exact, `int32(len(muxings))` of line 57
wraps.  `none` means the first loop is still running when the fuel is spent. -/
def ProgressiveWebMStatusEnricher.Enrich {σ : Type} (e : ProgressiveWebMStatusEnricher σ)
    (fuel : Nat) (w : σ) (s : JobStatus) : Option (EnrichResult σ) :=
  match drain e.api s.ProviderJobID fuel
      { world := w, totalCount := 1, muxings := [], calls := [] } with
  | none => none
  | some (.error (err, st)) =>
    some { status := s, err := some err, world := st.world, calls := st.calls }
  | some (.ok st) => some (enrichLoop e.api st.muxings st.world s st.calls)

/-- A remote that serves the fixed list `L` in pages of at most `P` items and
answers every information request with `info`. -/
def pagedApi (L : List ProgressiveWebmMuxing) (P : Nat)
    (info : String → ProgressiveWebmMuxingInformation) : BitmovinApi Unit where
  List := fun w _ params =>
    (.ok { TotalCount := some (L.length : Int)
           Items := (L.drop params.Offset.toNat).take (min params.Limit.toNat P) }, w)
  InformationGet := fun w _ id => (.ok (info id), w)

/-- A remote that serves `L` like `pagedApi` but has no information for the
muxing `bad`. -/
def brokenInfoApi (L : List ProgressiveWebmMuxing) (P : Nat)
    (info : String → ProgressiveWebmMuxingInformation) (bad : String) : BitmovinApi Unit where
  List := (pagedApi L P info).List
  InformationGet := fun w _ id =>
    if id = bad then (.error (.base "information unavailable"), w) else (.ok (info id), w)

/-- A remote whose listing always reports one muxing and never delivers it. -/
def stuckApi : BitmovinApi Unit where
  List := fun w _ _ => (.ok { TotalCount := some 1, Items := [] }, w)
  InformationGet := fun w _ _ => (.error (.base "no such muxing"), w)

/-- A remote that answers the successive `List` calls from a script. -/
def scriptedApi (info : String → ProgressiveWebmMuxingInformation) :
    BitmovinApi (List (Except GoError Pagination)) where
  List := fun w _ _ =>
    match w with
    | [] => (.error (.base "script exhausted"), [])
    | answer :: rest => (answer, rest)
  InformationGet := fun w _ id => (.ok (info id), w)

/-- Three muxings of a sample job. -/
def sampleMuxings : List ProgressiveWebmMuxing :=
  [{ Id := "m1", Filename := "a.webm" }, { Id := "m2", Filename := "b.webm" },
    { Id := "m3", Filename := "c.webm" }]

/-- The information a sample remote has for every muxing. -/
def sampleInfo (_ : String) : ProgressiveWebmMuxingInformation :=
  { ContainerFormat := "webm", FileSize := some 1024
    VideoTracks := [{ FrameHeight := some 720, FrameWidth := some 1280, Codec := "vp9" }] }

/-- Information without video tracks, as for an audio-only output. -/
def audioOnlyInfo (_ : String) : ProgressiveWebmMuxingInformation :=
  { ContainerFormat := "webm", FileSize := none, VideoTracks := [] }

/-- The information of a sample remote whose muxing `m2` is audio-only. -/
def sampleMixedInfo (id : String) : ProgressiveWebmMuxingInformation :=
  if id = "m2" then audioOnlyInfo id
  else
    { ContainerFormat := "webm", FileSize := some 2048
      VideoTracks := [{ FrameHeight := some 1080, FrameWidth := some 1920, Codec := "vp9" },
        { FrameHeight := some 360, FrameWidth := some 640, Codec := "vp8" }] }

/-- A job status before enrichment. -/
def sampleStatus : JobStatus :=
  { ProviderJobID := "job-1", ProviderName := "bitmovin", Status := "finished"
    StatusMessage := "", ProviderStatus := []
    Output := { Destination := "s3://bucket/out/", Files := [] } }

end container

namespace configuration

/-! ## `provider/bitmovin/internal/configuration/h264.go` -/

/-- Record `db.Preset`: the caller-supplied encode intent. -/
structure Preset where
  Name : String
  Container : String
  ProviderMapping : List (String × String)
  Extension : String
  deriving DecidableEq, Repr

/-- Record `db.PresetSummary`: the remote identifiers a preset produced. -/
structure PresetSummary where
  Name : String
  Container : String
  VideoCodec : String
  VideoConfigID : String
  AudioCodec : String
  AudioConfigID : String
  deriving DecidableEq, Repr

/-- Modelled from the spec: constant `model.CodecConfigType_H264` of the
remote SDK is not among the sources; it is the codec name `H264`. -/
def CodecConfigType_H264 : String := "H264"

/-- The remote operations the H264 service uses, over a remote state `ρ`:
`codec.NewH264(api, preset)` and
`api.Encoding.Configurations.Video.H264.Delete(id)`, whose response value the
source discards. -/
structure BitmovinApi (ρ : Type) where
  NewH264 : ρ → Preset → Except GoError String × ρ
  H264Delete : ρ → String → Option GoError × ρ

/-- Interface `db.PresetSummaryRepository` over a store state `δ`.  A lookup
does not change the store. -/
structure PresetSummaryRepository (δ : Type) where
  CreatePresetSummary : δ → PresetSummary → Option GoError × δ
  GetPresetSummary : δ → String → Except GoError PresetSummary
  DeletePresetSummary : δ → String → Option GoError × δ

/-- Record `H264`: the service with its two collaborators. -/
structure H264 (ρ δ : Type) where
  api : BitmovinApi ρ
  repo : PresetSummaryRepository δ

/-- A call made by the H264 service to one of its collaborators. -/
inductive Call where
  | NewH264 (preset : Preset)
  | H264Delete (id : String)
  | CreatePresetSummary (summary : PresetSummary)
  | GetPresetSummary (name : String)
  | DeletePresetSummary (name : String)
  deriving DecidableEq, Repr

/-- The remote state, the store state and the calls made so far. -/
structure World (ρ δ : Type) where
  remote : ρ
  store : δ
  calls : List Call

/-- Method `H264.Create`. -/
def H264.Create {ρ δ : Type} (c : H264 ρ δ) (preset : Preset) (w : World ρ δ) :
    (String × Option GoError) × World ρ δ :=
  match c.api.NewH264 w.remote preset with
  | (.error err, r1) =>
    (("", some err), { w with remote := r1, calls := w.calls ++ [Call.NewH264 preset] })
  | (.ok vidCfgID, r1) =>
    let summary : PresetSummary :=
      { Name := preset.Name
        Container := preset.Container
        VideoCodec := CodecConfigType_H264
        VideoConfigID := vidCfgID
        AudioCodec := ""
        AudioConfigID := "" }
    match c.repo.CreatePresetSummary w.store summary with
    | (some err, d1) =>
      (("", some err),
        { remote := r1, store := d1
          calls := w.calls ++ [Call.NewH264 preset, Call.CreatePresetSummary summary] })
    | (none, d1) =>
      ((preset.Name, none),
        { remote := r1, store := d1
          calls := w.calls ++ [Call.NewH264 preset, Call.CreatePresetSummary summary] })

/-- Method `H264.Get`. -/
def H264.Get {ρ δ : Type} (c : H264 ρ δ) (presetName : String) (w : World ρ δ) :
    Except GoError PresetSummary × World ρ δ :=
  (c.repo.GetPresetSummary w.store presetName,
    { w with calls := w.calls ++ [Call.GetPresetSummary presetName] })

/-- Method `H264.Delete`. -/
def H264.Delete {ρ δ : Type} (c : H264 ρ δ) (presetName : String) (w : World ρ δ) :
    Option GoError × World ρ δ :=
  match c.Get presetName w with
  | (.error err, w1) => (some err, w1)
  | (.ok summary, w1) =>
    match c.api.H264Delete w1.remote summary.VideoConfigID with
    | (some err, r1) =>
      (some (.wrap err "removing the video config"),
        { w1 with remote := r1, calls := w1.calls ++ [Call.H264Delete summary.VideoConfigID] })
    | (none, r1) =>
      match c.repo.DeletePresetSummary w1.store presetName with
      | (some err, d1) =>
        (some (.errorf "deleting preset summary: %w" err),
          { remote := r1, store := d1
            calls := w1.calls ++
              [Call.H264Delete summary.VideoConfigID, Call.DeletePresetSummary presetName] })
      | (none, d1) =>
        (none,
          { remote := r1, store := d1
            calls := w1.calls ++
              [Call.H264Delete summary.VideoConfigID, Call.DeletePresetSummary presetName] })

/-- The store's error for a name without a record. -/
def ErrPresetSummaryNotFound : GoError := .base "preset summary not found"

/-- A store kept as a list of summaries, at most one per name. -/
def listRepo : PresetSummaryRepository (List PresetSummary) where
  CreatePresetSummary := fun d summary =>
    (none, summary :: d.filter (fun x => x.Name != summary.Name))
  GetPresetSummary := fun d name =>
    match d.find? (fun x => x.Name == name) with
    | some summary => .ok summary
    | none => .error ErrPresetSummaryNotFound
  DeletePresetSummary := fun d name =>
    if d.any (fun x => x.Name == name) then (none, d.filter (fun x => x.Name != name))
    else (some ErrPresetSummaryNotFound, d)

/-- A remote that numbers the configurations it creates; with `up = false`
every call fails. -/
def countingApi (up : Bool) : BitmovinApi Nat where
  NewH264 := fun n _ =>
    if up then (.ok (toString n), n + 1) else (.error (.base "remote unavailable"), n)
  H264Delete := fun n _ =>
    if up then (none, n) else (some (.base "remote unavailable"), n)

/-- A remote that keeps the IDs of its video configurations: a create adds an
ID, a delete removes the given ID and fails when it is not there. -/
def ledgerApi : BitmovinApi (List String) where
  NewH264 := fun ids preset => (.ok ("cfg-" ++ preset.Name), ("cfg-" ++ preset.Name) :: ids)
  H264Delete := fun ids id =>
    if id ∈ ids then (none, ids.filter (fun x => x != id))
    else (some (.base "no such configuration"), ids)

/-- A preset of the sample configuration runs. -/
def samplePreset : Preset :=
  { Name := "webm_720p", Container := "webm", ProviderMapping := [("bitmovin", "123455")]
    Extension := "webm" }

/-- The summary the sample runs find in the store. -/
def sampleSummary : PresetSummary :=
  { Name := "webm_720p", Container := "webm", VideoCodec := "H264", VideoConfigID := "7"
    AudioCodec := "", AudioConfigID := "" }

end configuration

namespace service

/-! ## `service/service.go` -/

/-- Record `jsonErr`. -/
structure jsonErr where
  Err : String
  deriving DecidableEq, Repr

/-- Method `jsonErr.Error`. -/
def jsonErr.Error (e : jsonErr) : String := e.Err

/-- A Go `error` value at the service boundary: an error of the lower layers
or a pointer to a `jsonErr`. -/
inductive EndpointError where
  | internal (e : GoError)
  | json (e : jsonErr)
  deriving DecidableEq, Repr

/-- Constant `http.StatusServiceUnavailable`. -/
def StatusServiceUnavailable : Int := 503

/-- One record written through `server.LogWithFields(r)`. -/
structure LogEntry (Req : Type) where
  request : Req
  level : String
  error : Option EndpointError
  message : String

/-- Type `server.JSONEndpoint`: status, body (`nil` is `none`) and error,
over the state `ω` of everything outside the endpoint. -/
def JSONEndpoint (Req β ω : Type) : Type :=
  Req → ω → (Int × Option β × Option EndpointError) × ω

/-- Record `JSONService`, with the log sink its middleware writes to. -/
structure JSONService (Req ω : Type) where
  Log : ω → LogEntry Req → ω

/-- Method `JSONService.JSONMiddleware`. -/
def JSONService.JSONMiddleware {Req β ω : Type} (s : JSONService Req ω)
    (j : JSONEndpoint Req β ω) : JSONEndpoint Req β ω :=
  fun r w =>
    match j r w with
    | ((_, _, some err), w1) =>
      ((StatusServiceUnavailable, none,
          some (.json { Err := "sorry, this service is unavailable" })),
        s.Log w1 { request := r, level := "error", error := some err
                   message := "problems with serving request" })
    | ((status, res, none), w1) =>
      ((status, res, none),
        s.Log w1 { request := r, level := "info", error := none, message := "success!" })

/-- A service whose outside world is the list of log records written. -/
def listLogService (Req : Type) : JSONService Req (List (LogEntry Req)) where
  Log := fun w entry => w ++ [entry]

/-- An endpoint that fails with the given status, body and internal error. -/
def failingEndpoint (status : Int) (body : String) (msg : String) :
    JSONEndpoint Unit String (List (LogEntry Unit)) :=
  fun _ w => ((status, some body, some (.internal (.base msg))), w)

/-- An endpoint that succeeds with the given status and body. -/
def succeedingEndpoint (status : Int) (body : String) :
    JSONEndpoint Unit String (List (LogEntry Unit)) :=
  fun _ w => ((status, some body, none), w)

end service

namespace encodingcom

/-! ## `provider/encodingcom`: the status translator -/

/-- Type `provider.Status`: the canonical job statuses. -/
inductive Status where
  | StatusQueued
  | StatusStarted
  | StatusFinished
  | StatusFailed
  | StatusUnknown
  deriving DecidableEq, Repr

/-- The rows of `TestJobStatusMap` (lines 256-273 of `encodingcom_test.go`):
a provider status and the canonical status expected for it. -/
def testJobStatusMap : List (String × Status) :=
  [("New", .StatusQueued), ("Downloading", .StatusStarted),
    ("Ready to process", .StatusStarted), ("Waiting for encoder", .StatusStarted),
    ("Processing", .StatusStarted), ("Saving", .StatusStarted),
    ("Finished", .StatusFinished), ("Error", .StatusFailed), ("Unknown", .StatusUnknown),
    ("new", .StatusQueued), ("downloading", .StatusStarted),
    ("ready to process", .StatusStarted), ("waiting for encoder", .StatusStarted),
    ("processing", .StatusStarted), ("saving", .StatusStarted),
    ("finished", .StatusFinished), ("error", .StatusFailed), ("unknown", .StatusUnknown)]

/-- The provider's known table: the lower-case rows of `TestJobStatusMap`. -/
def statusTable : List (String × Status) :=
  [("new", .StatusQueued), ("downloading", .StatusStarted),
    ("ready to process", .StatusStarted), ("waiting for encoder", .StatusStarted),
    ("processing", .StatusStarted), ("saving", .StatusStarted),
    ("finished", .StatusFinished), ("error", .StatusFailed), ("unknown", .StatusUnknown)]

/-- Lower-casing of the letters `A`-`Z` alone, every other character kept:
what a lower-casing function does on ASCII text such as the rows of
`TestJobStatusMap`. -/
def lowerASCII (s : String) : String := ⟨s.data.map Char.toLower⟩

/-- Modelled from the spec: method `encodingComProvider.statusMap` is not
among the sources, only its test is.  "Policy: lower-case normalization
before comparison; any value not in the provider's known table maps to
Unknown (never an error)".  The lower-casing function of the Go library,
`strings.ToLower`, is not among the sources either and is the parameter
`ToLower`. -/
def statusMap (ToLower : String → String) (encodingComStatus : String) : Status :=
  match statusTable.lookup (ToLower encodingComStatus) with
  | some status => status
  | none => .StatusUnknown

end encodingcom

/-! ## Lemmas on the paginated collector and the enrichment loop -/

namespace container

theorem toInt32_natCast (n : Nat) (h : n < 2 ^ 31) : toInt32 (n : Int) = (n : Int) := by
  unfold toInt32
  omega

/-- From a state holding the first `k` items of `L`, a remote that serves `L`
in pages of `min 100 P ≥ 1` items lets the loop end with all of `L`. -/
theorem drain_paged {σ : Type} (api : BitmovinApi σ) (job : String)
    (L : List ProgressiveWebmMuxing) (P : Nat) (hP : 1 ≤ P) (hN : L.length < 2 ^ 31)
    (hList : ∀ (w : σ) (o : Nat),
      (api.List w job { Offset := (o : Int), Limit := 100 }).1 =
        .ok { TotalCount := some (L.length : Int), Items := (L.drop o).take (min 100 P) }) :
    ∀ (fuel k : Nat) (w : σ) (calls : List Call), L.length - k + 1 ≤ fuel →
      ∃ w1 calls1,
        drain api job fuel
            { world := w, totalCount := (L.length : Int), muxings := L.take k, calls := calls } =
          some (.ok { world := w1, totalCount := (L.length : Int), muxings := L,
                      calls := calls1 }) := by
  intro fuel
  induction fuel with
  | zero => intro k w calls h; omega
  | succ fuel ih =>
    intro k w calls hfuel
    by_cases hk : k < L.length
    · have hlen : (L.take k).length = k := by
        rw [List.length_take]; omega
      have hoff : toInt32 ((L.take k).length : Int) = (k : Int) := by
        rw [hlen]; exact toInt32_natCast k (by omega)
      have hcond : ((L.take k).length : Int) < (L.length : Int) := by
        rw [hlen]; exact_mod_cast hk
      have hl := hList w k
      rcases hres : api.List w job { Offset := (k : Int), Limit := 100 } with ⟨res, w1⟩
      rw [hres] at hl
      simp only at hl
      subst hl
      have hm : 1 ≤ min 100 P := by omega
      have htake : L.take k ++ (L.drop k).take (min 100 P) = L.take (k + min 100 P) := by
        rw [List.take_add]
      obtain ⟨w2, calls2, h2⟩ := ih (k + min 100 P) w1
        (calls ++ [Call.List job { Offset := (k : Int), Limit := 100 }]) (by omega)
      refine ⟨w2, calls2, ?_⟩
      simp only [drain, drainStep, hcond, if_true, hoff, hres, int64Value, htake]
      exact h2
    · have htake : L.take k = L := List.take_of_length_le (by omega)
      refine ⟨w, calls, ?_⟩
      simp [drain, drainStep, htake]

/-- When every information request succeeds, the `range` loop appends one
file per muxing, in order, each built from the information the remote
returned for that muxing, and returns no error. -/
theorem enrichLoop_ok {σ : Type} (api : BitmovinApi σ)
    (hGet : ∀ (w : σ) (job id : String), ∃ info, (api.InformationGet w job id).1 = .ok info) :
    ∀ (muxings : List ProgressiveWebmMuxing) (w : σ) (s : JobStatus) (calls : List Call),
      ∃ infos : List ProgressiveWebmMuxingInformation, infos.length = muxings.length ∧
        List.Forall₂ (fun m info =>
          ∃ wi, (api.InformationGet wi s.ProviderJobID m.Id).1 = .ok info) muxings infos ∧
        (enrichLoop api muxings w s calls).err = none ∧
        (enrichLoop api muxings w s calls).status =
          { s with Output := { s.Output with
              Files := s.Output.Files ++
                List.zipWith (outputFile s.Output.Destination) muxings infos } } := by
  intro muxings
  induction muxings with
  | nil =>
    intro w s calls
    exact ⟨[], rfl, List.Forall₂.nil, rfl, by simp [enrichLoop]⟩
  | cons muxing rest ih =>
    intro w s calls
    obtain ⟨info, hinfo⟩ := hGet w s.ProviderJobID muxing.Id
    rcases hres : api.InformationGet w s.ProviderJobID muxing.Id with ⟨res, w1⟩
    rw [hres] at hinfo
    simp only at hinfo
    subst hinfo
    obtain ⟨infos, hlen, hall, herr, hst⟩ := ih w1
      { s with Output := { s.Output with
          Files := s.Output.Files ++ [outputFile s.Output.Destination muxing info] } }
      (calls ++ [Call.InformationGet s.ProviderJobID muxing.Id])
    refine ⟨info :: infos, by simp [hlen], List.Forall₂.cons ⟨w, by rw [hres]⟩ hall, ?_, ?_⟩
    · simp only [enrichLoop, hres]; exact herr
    · simp only [enrichLoop, hres]; rw [hst]; simp


/-- While the information requests succeed, the loop over `pre ++ rest`
is the loop over `rest` started where the loop over `pre` ended. -/
theorem enrichLoop_append_of_ok {σ : Type} (api : BitmovinApi σ)
    (rest : List ProgressiveWebmMuxing) :
    ∀ (pre : List ProgressiveWebmMuxing) (w : σ) (s : JobStatus) (calls : List Call),
      (enrichLoop api pre w s calls).err = none →
      enrichLoop api (pre ++ rest) w s calls =
        enrichLoop api rest (enrichLoop api pre w s calls).world
          (enrichLoop api pre w s calls).status (enrichLoop api pre w s calls).calls := by
  intro pre
  induction pre with
  | nil => intro w s calls _; simp [enrichLoop]
  | cons muxing pre ih =>
    intro w s calls h
    rcases hres : api.InformationGet w s.ProviderJobID muxing.Id with ⟨res, w1⟩
    cases res with
    | error e => simp [enrichLoop, hres] at h
    | ok info =>
      simp only [enrichLoop, hres] at h
      simp only [List.cons_append, enrichLoop, hres]
      exact ih _ _ _ h

/-- A loop that ends without error appended one file per muxing, in order,
each built from the information the remote returned for that muxing, and
made one information request per muxing. -/
theorem enrichLoop_of_ok {σ : Type} (api : BitmovinApi σ) :
    ∀ (pre : List ProgressiveWebmMuxing) (w : σ) (s : JobStatus) (calls : List Call),
      (enrichLoop api pre w s calls).err = none →
      ∃ infos : List ProgressiveWebmMuxingInformation, infos.length = pre.length ∧
        List.Forall₂ (fun m info =>
          ∃ wi, (api.InformationGet wi s.ProviderJobID m.Id).1 = .ok info) pre infos ∧
        (enrichLoop api pre w s calls).status =
          { s with Output := { s.Output with
              Files := s.Output.Files ++
                List.zipWith (outputFile s.Output.Destination) pre infos } } ∧
        (enrichLoop api pre w s calls).calls =
          calls ++ pre.map (fun m => Call.InformationGet s.ProviderJobID m.Id) := by
  intro pre
  induction pre with
  | nil =>
    intro w s calls _
    exact ⟨[], rfl, List.Forall₂.nil, by simp [enrichLoop], by simp [enrichLoop]⟩
  | cons muxing pre ih =>
    intro w s calls h
    rcases hres : api.InformationGet w s.ProviderJobID muxing.Id with ⟨res, w1⟩
    cases res with
    | error e => simp [enrichLoop, hres] at h
    | ok info =>
      simp only [enrichLoop, hres] at h
      obtain ⟨infos, hlen, hall, hst, hcalls⟩ := ih _ _ _ h
      refine ⟨info :: infos, by simp [hlen],
        List.Forall₂.cons ⟨w, by rw [hres]⟩ hall, ?_, ?_⟩
      · simp only [enrichLoop, hres]; rw [hst]; simp
      · simp only [enrichLoop, hres]; rw [hcalls]; simp

/-- The loop only appends files, at most one per muxing, and an error it
returns is the failed information request of one of its muxings. -/
theorem enrichLoop_extends {σ : Type} (api : BitmovinApi σ) :
    ∀ (muxings : List ProgressiveWebmMuxing) (w : σ) (s : JobStatus) (calls : List Call),
      ∃ more : List OutputFile, more.length ≤ muxings.length ∧
        (enrichLoop api muxings w s calls).status.Output.Files = s.Output.Files ++ more ∧
        ((enrichLoop api muxings w s calls).err = none ∨
          ∃ m ∈ muxings, ∃ e, (enrichLoop api muxings w s calls).err =
            some (.wrapf e "retrieving muxing information with ID %q" [m.Id])) := by
  intro muxings
  induction muxings with
  | nil => intro w s calls; exact ⟨[], by simp, by simp [enrichLoop], Or.inl rfl⟩
  | cons muxing rest ih =>
    intro w s calls
    rcases hres : api.InformationGet w s.ProviderJobID muxing.Id with ⟨res, w1⟩
    cases res with
    | error e =>
      refine ⟨[], by simp, by simp [enrichLoop, hres], Or.inr ⟨muxing, by simp, e, ?_⟩⟩
      simp only [enrichLoop, hres]
    | ok info =>
      obtain ⟨more, hlen, hfiles, herr⟩ := ih w1
        { s with Output := { s.Output with
            Files := s.Output.Files ++ [outputFile s.Output.Destination muxing info] } }
        (calls ++ [Call.InformationGet s.ProviderJobID muxing.Id])
      refine ⟨outputFile s.Output.Destination muxing info :: more, by simp [hlen], ?_, ?_⟩
      · simp only [enrichLoop, hres, hfiles, List.append_assoc, List.singleton_append]
      · rcases herr with herr | ⟨m, hm, e, herr⟩
        · left
          simp only [enrichLoop, hres]
          exact herr
        · right
          refine ⟨m, List.mem_cons_of_mem _ hm, e, ?_⟩
          simp only [enrichLoop, hres]
          exact herr

/-- The first `n` pages are `n` iterations of the loop. -/
theorem drain_afterPages {σ : Type} (api : BitmovinApi σ) (job : String) (fuel : Nat) :
    ∀ (n : Nat) (st st1 : DrainState σ), afterPages api job n st = some st1 →
      drain api job (n + fuel) st = drain api job fuel st1 := by
  intro n
  induction n with
  | zero => intro st st1 h; simp [afterPages] at h; simp [h]
  | succ n ih =>
    intro st st1 h
    rw [Nat.add_right_comm]
    cases hstep : drainStep api job st with
    | page st2 =>
      simp only [afterPages, hstep] at h
      simp only [drain, hstep]
      exact ih st2 st1 h
    | done st2 => simp [afterPages, hstep] at h
    | failed err st2 => simp [afterPages, hstep] at h

/-- A step that goes round the loop again made one successful `List` call
at the offset of the items collected so far. -/
theorem drainStep_page {σ : Type} (api : BitmovinApi σ) (job : String)
    (st st2 : DrainState σ) (h : drainStep api job st = .page st2) :
    (st.muxings.length : Int) < st.totalCount ∧
    ∃ resp w, api.List st.world job
        { Offset := toInt32 st.muxings.length, Limit := 100 } = (.ok resp, w) ∧
      st2 = { world := w
              totalCount := int64Value resp.TotalCount
              muxings := st.muxings ++ resp.Items
              calls := st.calls ++
                [Call.List job { Offset := toInt32 st.muxings.length, Limit := 100 }] } := by
  unfold drainStep at h
  by_cases hc : (st.muxings.length : Int) < st.totalCount
  · rcases hres : api.List st.world job
        { Offset := toInt32 st.muxings.length, Limit := 100 } with ⟨res, w⟩
    cases res with
    | error e => simp [hc, hres] at h
    | ok resp =>
      simp only [hc, if_true, hres, DrainStep.page.injEq] at h
      exact ⟨hc, resp, w, rfl, h.symm⟩
  · simp [hc] at h

/-- The first `n` pages cost `n` calls, all of them `List` calls. -/
theorem afterPages_calls {σ : Type} (api : BitmovinApi σ) (job : String) :
    ∀ (n : Nat) (st st1 : DrainState σ), afterPages api job n st = some st1 →
      ∃ cs : List Call, st1.calls = st.calls ++ cs ∧ cs.length = n ∧
        ∀ c ∈ cs, ∃ params, c = Call.List job params := by
  intro n
  induction n with
  | zero => intro st st1 h; simp [afterPages] at h; exact ⟨[], by simp [h], rfl, by simp⟩
  | succ n ih =>
    intro st st1 h
    cases hstep : drainStep api job st with
    | page st2 =>
      simp only [afterPages, hstep] at h
      obtain ⟨cs, hcs, hlen, hall⟩ := ih st2 st1 h
      obtain ⟨_, resp, w, _, rfl⟩ := drainStep_page api job st st2 hstep
      refine ⟨_ :: cs, by simpa using hcs, by simp [hlen], ?_⟩
      intro c hc
      rcases List.mem_cons.mp hc with rfl | hc
      · exact ⟨_, rfl⟩
      · exact hall c hc
    | done st2 => simp [afterPages, hstep] at h
    | failed err st2 => simp [afterPages, hstep] at h


theorem toInt32_le_self (n : Nat) : toInt32 (n : Int) ≤ (n : Int) := by
  unfold toInt32
  omega

/-- A step that leaves the loop found the collected count at or above the
reported total and changed nothing. -/
theorem drainStep_done {σ : Type} (api : BitmovinApi σ) (job : String)
    (st st2 : DrainState σ) (h : drainStep api job st = .done st2) :
    st2 = st ∧ st.totalCount ≤ (st.muxings.length : Int) := by
  unfold drainStep at h
  by_cases hc : (st.muxings.length : Int) < st.totalCount
  · rcases hres : api.List st.world job
        { Offset := toInt32 st.muxings.length, Limit := 100 } with ⟨res, w⟩
    cases res with
    | error e => simp [hc, hres] at h
    | ok resp => simp [hc, hres] at h
  · simp only [hc, if_false, DrainStep.done.injEq] at h
    exact ⟨h.symm, by omega⟩

/-- A step that fails made a `List` call that failed, and wraps its error. -/
theorem drainStep_failed {σ : Type} (api : BitmovinApi σ) (job : String)
    (st st2 : DrainState σ) (err : GoError) (h : drainStep api job st = .failed err st2) :
    (st.muxings.length : Int) < st.totalCount ∧
    ∃ e w, api.List st.world job
        { Offset := toInt32 st.muxings.length, Limit := 100 } = (.error e, w) ∧
      err = .wrap e "retrieving progressive webm muxings from the Bitmovin API" ∧
      st2 = { st with world := w, calls := st.calls ++
        [Call.List job { Offset := toInt32 st.muxings.length, Limit := 100 }] } := by
  unfold drainStep at h
  by_cases hc : (st.muxings.length : Int) < st.totalCount
  · rcases hres : api.List st.world job
        { Offset := toInt32 st.muxings.length, Limit := 100 } with ⟨res, w⟩
    cases res with
    | error e =>
      simp only [hc, if_true, hres, DrainStep.failed.injEq] at h
      exact ⟨hc, e, w, rfl, h.1.symm, h.2.symm⟩
    | ok resp => simp [hc, hres] at h
  · simp [hc] at h

/-- One more page after the first `n`. -/
theorem afterPages_succ {σ : Type} (api : BitmovinApi σ) (job : String) :
    ∀ (n : Nat) (st0 st st2 : DrainState σ), afterPages api job n st0 = some st →
      drainStep api job st = .page st2 → afterPages api job (n + 1) st0 = some st2 := by
  intro n
  induction n with
  | zero =>
    intro st0 st st2 h hs
    simp only [afterPages, Option.some.injEq] at h
    subst h
    simp only [afterPages, hs]
  | succ n ih =>
    intro st0 st st2 h hs
    cases hstep : drainStep api job st0 with
    | page st1 =>
      simp only [afterPages, hstep] at h
      have h2 := ih st1 st st2 h hs
      rw [afterPages]
      simp only [hstep]
      exact h2
    | done st1 => simp [afterPages, hstep] at h
    | failed err st1 => simp [afterPages, hstep] at h

/-- While pages keep coming the loop has not returned. -/
theorem drain_none_of_afterPages {σ : Type} (api : BitmovinApi σ) (job : String) :
    ∀ (n : Nat) (st0 st : DrainState σ), afterPages api job n st0 = some st →
      ∀ fuel, fuel ≤ n → drain api job fuel st0 = none := by
  intro n
  induction n with
  | zero =>
    intro st0 st _ fuel hf
    obtain rfl : fuel = 0 := by omega
    rfl
  | succ n ih =>
    intro st0 st h fuel hf
    cases fuel with
    | zero => rfl
    | succ f =>
      cases hstep : drainStep api job st0 with
      | page st1 =>
        simp only [afterPages, hstep] at h
        simp only [drain, hstep]
        exact ih st1 st h f (by omega)
      | done st1 => simp [afterPages, hstep] at h
      | failed err st1 => simp [afterPages, hstep] at h

/-- A loop that ends normally ends after some pages with the collected count
at or above the last reported total. -/
theorem drain_ok_inv {σ : Type} (api : BitmovinApi σ) (job : String) :
    ∀ (fuel : Nat) (st0 st1 : DrainState σ), drain api job fuel st0 = some (.ok st1) →
      ∃ n, afterPages api job n st0 = some st1 ∧
        st1.totalCount ≤ (st1.muxings.length : Int) := by
  intro fuel
  induction fuel with
  | zero => intro st0 st1 h; simp [drain] at h
  | succ fuel ih =>
    intro st0 st1 h
    cases hstep : drainStep api job st0 with
    | page st2 =>
      simp only [drain, hstep] at h
      obtain ⟨n, hn, hle⟩ := ih st2 st1 h
      refine ⟨n + 1, ?_, hle⟩
      rw [afterPages]
      simp only [hstep]
      exact hn
    | done st2 =>
      simp only [drain, hstep, Option.some.injEq, Except.ok.injEq] at h
      subst h
      obtain ⟨rfl, hle⟩ := drainStep_done api job st0 st2 hstep
      exact ⟨0, rfl, hle⟩
    | failed err st2 => simp [drain, hstep] at h

/-- A loop that ends with an error ends after some pages on a failed `List`
call, whose error it wraps. -/
theorem drain_error_inv {σ : Type} (api : BitmovinApi σ) (job : String) :
    ∀ (fuel : Nat) (st0 st1 : DrainState σ) (err : GoError),
      drain api job fuel st0 = some (.error (err, st1)) →
      ∃ n st e w, afterPages api job n st0 = some st ∧
        (st.muxings.length : Int) < st.totalCount ∧
        api.List st.world job
          { Offset := toInt32 st.muxings.length, Limit := 100 } = (.error e, w) ∧
        err = .wrap e "retrieving progressive webm muxings from the Bitmovin API" ∧
        st1 = { st with world := w, calls := st.calls ++
          [Call.List job { Offset := toInt32 st.muxings.length, Limit := 100 }] } := by
  intro fuel
  induction fuel with
  | zero => intro st0 st1 err h; simp [drain] at h
  | succ fuel ih =>
    intro st0 st1 err h
    cases hstep : drainStep api job st0 with
    | page st2 =>
      simp only [drain, hstep] at h
      obtain ⟨n, st, e, w, hn, hrest⟩ := ih st2 st1 err h
      refine ⟨n + 1, st, e, w, ?_, hrest⟩
      rw [afterPages]
      simp only [hstep]
      exact hn
    | done st2 => simp [drain, hstep] at h
    | failed err2 st2 =>
      simp only [drain, hstep, Option.some.injEq, Except.error.injEq, Prod.mk.injEq] at h
      obtain ⟨rfl, rfl⟩ := h
      obtain ⟨hc, e, w, hres, herr, hst⟩ := drainStep_failed api job st0 _ _ hstep
      exact ⟨0, st0, e, w, rfl, hc, hres, herr, hst⟩

/-- The calls made before the `range` loop stay at the front of its calls. -/
theorem enrichLoop_keeps_calls {σ : Type} (api : BitmovinApi σ) :
    ∀ (muxings : List ProgressiveWebmMuxing) (w : σ) (s : JobStatus) (calls : List Call),
      calls <+: (enrichLoop api muxings w s calls).calls := by
  intro muxings
  induction muxings with
  | nil => intro w s calls; simp [enrichLoop]
  | cons muxing rest ih =>
    intro w s calls
    rcases hres : api.InformationGet w s.ProviderJobID muxing.Id with ⟨res, w1⟩
    cases res with
    | error e => simp [enrichLoop, hres]
    | ok info =>
      simp only [enrichLoop, hres]
      exact (List.prefix_append calls _).trans (ih _ _ _)

/-- If, along the run from `st0`, reported totals never exceed `M` and a page
is empty only when the reported total does not exceed the collected count,
the loop ends within `M - collected + 1` evaluations of its condition. -/
theorem drain_of_progress {σ : Type} (api : BitmovinApi σ) (job : String) (M : Nat)
    (st0 : DrainState σ)
    (hprog : ∀ (n : Nat) (st : DrainState σ) (resp : Pagination) (w1 : σ),
      afterPages api job n st0 = some st →
      (st.muxings.length : Int) < st.totalCount →
      api.List st.world job
        { Offset := toInt32 st.muxings.length, Limit := 100 } = (.ok resp, w1) →
        int64Value resp.TotalCount ≤ (M : Int) ∧
        (resp.Items = [] → int64Value resp.TotalCount ≤ (st.muxings.length : Int))) :
    ∀ (fuel n : Nat) (st : DrainState σ), afterPages api job n st0 = some st →
      st.totalCount ≤ (M : Int) → 1 ≤ fuel →
      ((st.muxings.length : Int) < st.totalCount → M - st.muxings.length + 1 ≤ fuel) →
      ∃ res, drain api job fuel st = some res := by
  intro fuel
  induction fuel with
  | zero => intro n st _ _ h; omega
  | succ fuel ih =>
    intro n st hn hM _ hfuel
    cases hstep : drainStep api job st with
    | done st2 => exact ⟨.ok st2, by simp [drain, hstep]⟩
    | failed err st2 => exact ⟨.error (err, st2), by simp [drain, hstep]⟩
    | page st2 =>
      have hn2 := afterPages_succ api job n st0 st st2 hn hstep
      obtain ⟨hc, resp, w1, hres, rfl⟩ := drainStep_page api job st st2 hstep
      obtain ⟨hT, hempty⟩ := hprog n st resp w1 hn hc hres
      have hf := hfuel hc
      simp only [drain, hstep]
      apply ih (n + 1) _ hn2 hT (by omega)
      intro hc2
      simp only [List.length_append, Nat.cast_add] at hc2 ⊢
      by_cases hI : resp.Items = []
      · have h1 := hempty hI
        simp only [hI, List.length_nil, Nat.cast_zero, add_zero] at hc2
        omega
      · have hpos : 0 < resp.Items.length := List.length_pos.mpr hI
        omega

end container

/-! ## Claims on `ProgressiveWebMStatusEnricher.Enrich` -/

namespace container

/-- C1: against a remote that answers every `List` call at offset `o` (limit
100) with total count `N = L.length < 2^31` and the items
`L[o .. o + min 100 P)` for a page cap `P ≥ 1`, and whose `Information.Get`
always succeeds, `Enrich` returns (any fuel of at least `N + 2` is enough)
with no error, and the returned `Output.Files` is the input list followed by
exactly one `OutputFile` per muxing of `L`, in order, the `i`-th built by
`outputFile` from `L[i]` (so with `Path = Destination ++ L[i].Filename`); for
`N = 0` the status is returned unchanged. -/
theorem Enrich_collects_every_muxing_once_in_order {σ : Type} (api : BitmovinApi σ)
    (L : List ProgressiveWebmMuxing) (P : Nat) (w : σ) (s : JobStatus) (fuel : Nat)
    (hP : 1 ≤ P) (hN : L.length < 2 ^ 31)
    (hList : ∀ (w : σ) (o : Nat),
      (api.List w s.ProviderJobID { Offset := (o : Int), Limit := 100 }).1 =
        .ok { TotalCount := some (L.length : Int), Items := (L.drop o).take (min 100 P) })
    (hGet : ∀ (w : σ) (job id : String), ∃ info, (api.InformationGet w job id).1 = .ok info)
    (hfuel : L.length + 2 ≤ fuel) :
    ∃ (r : EnrichResult σ) (infos : List ProgressiveWebmMuxingInformation),
      (NewProgressiveWebMStatusEnricher api).Enrich fuel w s = some r ∧ r.err = none ∧
      infos.length = L.length ∧
      List.Forall₂ (fun m info =>
        ∃ wi, (api.InformationGet wi s.ProviderJobID m.Id).1 = .ok info) L infos ∧
      r.status = { s with Output := { s.Output with
          Files := s.Output.Files ++ List.zipWith (outputFile s.Output.Destination) L infos } } ∧
      (∀ i (hi : i < L.length) (hj : i < infos.length),
        (List.zipWith (outputFile s.Output.Destination) L infos)[i]? =
            some (outputFile s.Output.Destination L[i] infos[i]) ∧
          (outputFile s.Output.Destination L[i] infos[i]).Path =
            s.Output.Destination ++ L[i].Filename) ∧
      (L = [] → r.status = s) := by
  obtain ⟨fuel1, rfl⟩ : ∃ f, fuel = f + 1 := ⟨fuel - 1, by omega⟩
  have hl := hList w 0
  rcases hres : api.List w s.ProviderJobID { Offset := ((0 : Nat) : Int), Limit := 100 }
    with ⟨res, w1⟩
  rw [hres] at hl
  simp only at hl
  subst hl
  obtain ⟨w2, calls2, hdrain⟩ := drain_paged api s.ProviderJobID L P hP hN hList fuel1
    (min 100 P) w1 [Call.List s.ProviderJobID { Offset := ((0 : Nat) : Int), Limit := 100 }]
    (by omega)
  have h0 : toInt32 0 = 0 := by decide
  have hE : (NewProgressiveWebMStatusEnricher api).Enrich (fuel1 + 1) w s =
      some (enrichLoop api L w2 s calls2) := by
    simp only [ProgressiveWebMStatusEnricher.Enrich, NewProgressiveWebMStatusEnricher, drain,
      drainStep, List.length_nil, Nat.cast_zero, zero_lt_one, if_true, h0]
    simp only [Nat.cast_zero] at hres
    simp only [Nat.cast_zero] at hdrain
    simp only [hres, int64Value, List.nil_append, List.drop_zero, hdrain]
  obtain ⟨infos, hlen, hall, herr, hst⟩ := enrichLoop_ok api hGet L w2 s calls2
  refine ⟨_, infos, hE, herr, hlen, hall, hst, ?_, ?_⟩
  · intro i hi hj
    refine ⟨?_, rfl⟩
    simp [List.getElem?_zipWith, List.getElem?_eq_getElem, hi, hj]
  · intro hL
    subst hL
    rw [hst]
    simp


/-- Witness of C1: three muxings served in pages of two. -/
theorem Enrich_collects_every_muxing_once_in_order_witness :
    ∃ (r : EnrichResult Unit) (infos : List ProgressiveWebmMuxingInformation),
      (NewProgressiveWebMStatusEnricher (pagedApi sampleMuxings 2 sampleInfo)).Enrich
        5 () sampleStatus = some r ∧
      r.err = none ∧ infos.length = sampleMuxings.length ∧
      List.Forall₂ (fun m info =>
        ∃ wi, ((pagedApi sampleMuxings 2 sampleInfo).InformationGet wi
          sampleStatus.ProviderJobID m.Id).1 = .ok info) sampleMuxings infos ∧
      r.status = { sampleStatus with Output := { sampleStatus.Output with
          Files := sampleStatus.Output.Files ++
            List.zipWith (outputFile sampleStatus.Output.Destination) sampleMuxings infos } } ∧
      (∀ i (hi : i < sampleMuxings.length) (hj : i < infos.length),
        (List.zipWith (outputFile sampleStatus.Output.Destination) sampleMuxings infos)[i]? =
            some (outputFile sampleStatus.Output.Destination sampleMuxings[i] infos[i]) ∧
          (outputFile sampleStatus.Output.Destination sampleMuxings[i] infos[i]).Path =
            sampleStatus.Output.Destination ++ sampleMuxings[i].Filename) ∧
      (sampleMuxings = [] → r.status = sampleStatus) :=
  Enrich_collects_every_muxing_once_in_order (pagedApi sampleMuxings 2 sampleInfo)
    sampleMuxings 2 () sampleStatus 5 (by decide) (by decide)
    (fun _ o => by simp [pagedApi]) (fun _ _ id => ⟨sampleInfo id, rfl⟩) (by decide)


/-- C2 fails as stated: with three collected muxings and a metadata failure
on the second, the returned status carries the file of the first. -/
theorem Enrich_metadata_failure_returns_earlier_files :
    ∃ r : EnrichResult Unit,
      (NewProgressiveWebMStatusEnricher
        (brokenInfoApi sampleMuxings 100 sampleInfo "m2")).Enrich 2 () sampleStatus = some r ∧
      r.err ≠ none ∧
      r.status.Output.Files =
        [outputFile "s3://bucket/out/" { Id := "m1", Filename := "a.webm" } (sampleInfo "m1")] ∧
      r.status.Output.Files ≠ sampleStatus.Output.Files :=
  ⟨_, rfl, by decide, by decide, by decide⟩

/-- C2, amended: when the muxings were collected as `pre ++ muxing :: post`,
the information requests for `pre` succeed and the one for `muxing` fails
with `e`, `Enrich` returns the error `e` wrapped with the muxing ID, makes no
request for `post`, and returns the input status with exactly the files of
`pre` appended, in order, to `Output.Files`, each built from its muxing and
the information the remote returned for it: the status the loop over `pre`
alone ends with.  The status is the input one when `pre` is empty. -/
theorem Enrich_metadata_failure_aborts {σ : Type} (api : BitmovinApi σ) (fuel : Nat)
    (w w1 : σ) (s : JobStatus) (st : DrainState σ)
    (pre post : List ProgressiveWebmMuxing) (muxing : ProgressiveWebmMuxing) (e : GoError)
    (hdrain : drain api s.ProviderJobID fuel
      { world := w, totalCount := 1, muxings := [], calls := [] } = some (.ok st))
    (hmux : st.muxings = pre ++ muxing :: post)
    (hpre : (enrichLoop api pre st.world s st.calls).err = none)
    (hfail : api.InformationGet (enrichLoop api pre st.world s st.calls).world
      s.ProviderJobID muxing.Id = (.error e, w1)) :
    ∃ (r : EnrichResult σ) (infos : List ProgressiveWebmMuxingInformation),
      (NewProgressiveWebMStatusEnricher api).Enrich fuel w s = some r ∧
      r.err = some (.wrapf e "retrieving muxing information with ID %q" [muxing.Id]) ∧
      infos.length = pre.length ∧
      List.Forall₂ (fun m info =>
        ∃ wi, (api.InformationGet wi s.ProviderJobID m.Id).1 = .ok info) pre infos ∧
      r.status = { s with Output := { s.Output with
          Files := s.Output.Files ++
            List.zipWith (outputFile s.Output.Destination) pre infos } } ∧
      r.status.Output.Files.length = s.Output.Files.length + pre.length ∧
      r.calls = st.calls ++
        (pre ++ [muxing]).map (fun m => Call.InformationGet s.ProviderJobID m.Id) ∧
      (pre = [] → r.status = s) ∧
      r.status = (enrichLoop api pre st.world s st.calls).status ∧ r.world = w1 := by
  obtain ⟨infos, hlen, hall, hst, hcalls⟩ := enrichLoop_of_ok api pre st.world s st.calls hpre
  have hjob : (enrichLoop api pre st.world s st.calls).status.ProviderJobID = s.ProviderJobID := by
    rw [hst]
  have hE : (NewProgressiveWebMStatusEnricher api).Enrich fuel w s = some
      { status := (enrichLoop api pre st.world s st.calls).status
        err := some (.wrapf e "retrieving muxing information with ID %q" [muxing.Id])
        world := w1
        calls := (enrichLoop api pre st.world s st.calls).calls ++
          [Call.InformationGet s.ProviderJobID muxing.Id] } := by
    simp only [ProgressiveWebMStatusEnricher.Enrich, NewProgressiveWebMStatusEnricher, hdrain,
      hmux]
    rw [enrichLoop_append_of_ok api (muxing :: post) pre st.world s st.calls hpre]
    simp only [enrichLoop, hjob, hfail]
  refine ⟨_, infos, hE, rfl, hlen, hall, hst, ?_, ?_, ?_, rfl, rfl⟩
  · simp only [hst, List.length_append, List.length_zipWith, hlen, min_self]
  · simp only [hcalls, List.map_append, List.map_cons, List.map_nil, List.append_assoc]
  · intro hp
    subst hp
    simp only [hst, List.zipWith_nil_left, List.append_nil]

/-- Witness of C2 amended: three muxings, the information of the second is
missing. -/
theorem Enrich_metadata_failure_aborts_witness :
    ∃ (r : EnrichResult Unit) (infos : List ProgressiveWebmMuxingInformation),
      (NewProgressiveWebMStatusEnricher
        (brokenInfoApi sampleMuxings 100 sampleInfo "m2")).Enrich 2 () sampleStatus = some r ∧
      r.err = some (.wrapf (.base "information unavailable")
        "retrieving muxing information with ID %q" ["m2"]) ∧
      infos.length = 1 ∧
      List.Forall₂ (fun (m : ProgressiveWebmMuxing) info =>
        ∃ wi, ((brokenInfoApi sampleMuxings 100 sampleInfo "m2").InformationGet wi
          sampleStatus.ProviderJobID m.Id).1 = .ok info)
        [{ Id := "m1", Filename := "a.webm" }] infos ∧
      r.status = { sampleStatus with Output := { sampleStatus.Output with
          Files := sampleStatus.Output.Files ++
            List.zipWith (outputFile sampleStatus.Output.Destination)
              [{ Id := "m1", Filename := "a.webm" }] infos } } ∧
      r.status.Output.Files.length = sampleStatus.Output.Files.length + 1 ∧
      r.calls = [Call.List "job-1" { Offset := 0, Limit := 100 }] ++
        List.map (fun m : ProgressiveWebmMuxing =>
            Call.InformationGet sampleStatus.ProviderJobID m.Id)
          ([{ Id := "m1", Filename := "a.webm" }] ++ [{ Id := "m2", Filename := "b.webm" }]) ∧
      (([{ Id := "m1", Filename := "a.webm" }] : List ProgressiveWebmMuxing) = [] →
        r.status = sampleStatus) ∧
      r.status = (enrichLoop (brokenInfoApi sampleMuxings 100 sampleInfo "m2")
        [{ Id := "m1", Filename := "a.webm" }] () sampleStatus
        [Call.List "job-1" { Offset := 0, Limit := 100 }]).status ∧
      r.world = () :=
  Enrich_metadata_failure_aborts (brokenInfoApi sampleMuxings 100 sampleInfo "m2") 2 () ()
    sampleStatus
    { world := (), totalCount := 3, muxings := sampleMuxings
      calls := [Call.List "job-1" { Offset := 0, Limit := 100 }] }
    [{ Id := "m1", Filename := "a.webm" }] [{ Id := "m3", Filename := "c.webm" }]
    { Id := "m2", Filename := "b.webm" } (.base "information unavailable")
    rfl rfl rfl rfl


/-- C3 fails as stated: against a remote that always reports one muxing and
returns an empty page, no amount of fuel lets `Enrich` return; every
zero-item page is followed by another request, never by an error. -/
theorem Enrich_never_returns_on_stuck_listing :
    ¬ ∃ fuel,
      ((NewProgressiveWebMStatusEnricher stuckApi).Enrich fuel () sampleStatus).isSome = true := by
  have hloop : ∀ (fuel : Nat) (calls : List Call),
      drain stuckApi "job-1" fuel
        { world := (), totalCount := 1, muxings := [], calls := calls } = none := by
    intro fuel
    induction fuel with
    | zero => intro calls; rfl
    | succ fuel ih =>
      intro calls
      have h0 : toInt32 0 = 0 := by decide
      simp only [drain, drainStep, stuckApi, List.length_nil, Nat.cast_zero, zero_lt_one,
        if_true, int64Value, List.append_nil, h0]
      exact ih _
  rintro ⟨fuel, h⟩
  have hjob : sampleStatus.ProviderJobID = "job-1" := rfl
  simp [ProgressiveWebMStatusEnricher.Enrich, NewProgressiveWebMStatusEnricher, hjob,
    hloop fuel []] at h

/-- C3, amended: the page-draining loop stops only on a failed `List` call
(then `Enrich` returns the wrapped error and the input status) or with the
collected count at or above the last reported total (then the `range` loop
runs).  If, along the run, every page reports a total of at most `T` and is
empty only when that total does not exceed the collected count, `Enrich`
returns within `max T 1 + 1` evaluations of the loop condition.  A zero-item
page answered while the collected count is below the total it reports is not
an error and does not end the run: `Enrich` has not returned after it, and
whenever it returns, its calls hold a second `List` request at the same
offset right after that page. -/
theorem Enrich_terminates_when_pages_progress {σ : Type} (api : BitmovinApi σ) (w : σ)
    (s : JobStatus) :
    (∀ (fuel : Nat) (r : EnrichResult σ),
      (NewProgressiveWebMStatusEnricher api).Enrich fuel w s = some r →
      (∃ (n : Nat) (st : DrainState σ) (e : GoError) (w1 : σ),
        afterPages api s.ProviderJobID n
          { world := w, totalCount := 1, muxings := [], calls := [] } = some st ∧
        (st.muxings.length : Int) < st.totalCount ∧
        api.List st.world s.ProviderJobID
          { Offset := toInt32 st.muxings.length, Limit := 100 } = (.error e, w1) ∧
        r.err = some (.wrap e "retrieving progressive webm muxings from the Bitmovin API") ∧
        r.status = s) ∨
      (∃ (n : Nat) (st : DrainState σ),
        afterPages api s.ProviderJobID n
          { world := w, totalCount := 1, muxings := [], calls := [] } = some st ∧
        st.totalCount ≤ (st.muxings.length : Int) ∧
        r = enrichLoop api st.muxings st.world s st.calls)) ∧
    (∀ (T fuel : Nat),
      (∀ (n : Nat) (st : DrainState σ) (resp : Pagination) (w1 : σ),
        afterPages api s.ProviderJobID n
          { world := w, totalCount := 1, muxings := [], calls := [] } = some st →
        (st.muxings.length : Int) < st.totalCount →
        api.List st.world s.ProviderJobID
          { Offset := toInt32 st.muxings.length, Limit := 100 } = (.ok resp, w1) →
          int64Value resp.TotalCount ≤ (T : Int) ∧
          (resp.Items = [] → int64Value resp.TotalCount ≤ (st.muxings.length : Int))) →
      max T 1 + 1 ≤ fuel →
      ∃ r, (NewProgressiveWebMStatusEnricher api).Enrich fuel w s = some r) ∧
    (∀ (n : Nat) (st : DrainState σ) (resp : Pagination) (w1 : σ),
      afterPages api s.ProviderJobID n
        { world := w, totalCount := 1, muxings := [], calls := [] } = some st →
      (st.muxings.length : Int) < st.totalCount →
      api.List st.world s.ProviderJobID
        { Offset := toInt32 st.muxings.length, Limit := 100 } = (.ok resp, w1) →
      resp.Items = [] →
      (st.muxings.length : Int) < int64Value resp.TotalCount →
      (NewProgressiveWebMStatusEnricher api).Enrich (n + 1) w s = none ∧
      ∀ (fuel : Nat) (r : EnrichResult σ),
        (NewProgressiveWebMStatusEnricher api).Enrich fuel w s = some r →
        (st.calls ++
          [Call.List s.ProviderJobID { Offset := toInt32 st.muxings.length, Limit := 100 },
            Call.List s.ProviderJobID { Offset := toInt32 st.muxings.length, Limit := 100 }])
          <+: r.calls) := by
  refine ⟨?_, ?_, ?_⟩
  · intro fuel r hE
    simp only [ProgressiveWebMStatusEnricher.Enrich, NewProgressiveWebMStatusEnricher] at hE
    rcases hd : drain api s.ProviderJobID fuel
      { world := w, totalCount := 1, muxings := [], calls := [] } with _ | res
    · simp [hd] at hE
    · cases res with
      | error p =>
        obtain ⟨err, st1⟩ := p
        simp only [hd, Option.some.injEq] at hE
        obtain ⟨n, st, e, w1, hn, hc, hres, herr, -⟩ :=
          drain_error_inv api s.ProviderJobID fuel _ st1 err hd
        left
        exact ⟨n, st, e, w1, hn, hc, hres, by rw [← hE, herr], by rw [← hE]⟩
      | ok st1 =>
        simp only [hd, Option.some.injEq] at hE
        obtain ⟨n, hn, hle⟩ := drain_ok_inv api s.ProviderJobID fuel _ st1 hd
        right
        exact ⟨n, st1, hn, hle, hE.symm⟩
  · intro T fuel hprog hfuel
    have hprog1 : ∀ (n : Nat) (st : DrainState σ) (resp : Pagination) (w1 : σ),
        afterPages api s.ProviderJobID n
          { world := w, totalCount := 1, muxings := [], calls := [] } = some st →
        (st.muxings.length : Int) < st.totalCount →
        api.List st.world s.ProviderJobID
          { Offset := toInt32 st.muxings.length, Limit := 100 } = (.ok resp, w1) →
          int64Value resp.TotalCount ≤ ((max T 1 : Nat) : Int) ∧
          (resp.Items = [] → int64Value resp.TotalCount ≤ (st.muxings.length : Int)) := by
      intro n st resp w1 hn hc hres
      obtain ⟨h1, h2⟩ := hprog n st resp w1 hn hc hres
      exact ⟨by have : (T : Int) ≤ ((max T 1 : Nat) : Int) := by exact_mod_cast le_max_left T 1
                omega, h2⟩
    have hone : (1 : Int) ≤ ((max T 1 : Nat) : Int) := by exact_mod_cast le_max_right T 1
    obtain ⟨res, hres⟩ := drain_of_progress api s.ProviderJobID (max T 1) _ hprog1 fuel 0
      { world := w, totalCount := 1, muxings := [], calls := [] } rfl hone (by omega)
      (by intro _; simp only [List.length_nil]; omega)
    cases res with
    | error p =>
      exact ⟨{ status := s, err := some p.1, world := p.2.world, calls := p.2.calls },
        by simp only [ProgressiveWebMStatusEnricher.Enrich, NewProgressiveWebMStatusEnricher,
          hres]⟩
    | ok st =>
      exact ⟨enrichLoop api st.muxings st.world s st.calls,
        by simp only [ProgressiveWebMStatusEnricher.Enrich, NewProgressiveWebMStatusEnricher,
          hres]⟩
  · intro n st resp w1 hn hc hres hI hbelow
    have hstep : drainStep api s.ProviderJobID st = .page
        { world := w1
          totalCount := int64Value resp.TotalCount
          muxings := st.muxings
          calls := st.calls ++ [Call.List s.ProviderJobID
            { Offset := toInt32 st.muxings.length, Limit := 100 }] } := by
      simp only [drainStep, hc, if_true, hres, hI, List.append_nil]
    have hn2 := afterPages_succ api s.ProviderJobID n _ st _ hn hstep
    have hnone := drain_none_of_afterPages api s.ProviderJobID (n + 1) _ _ hn2
    refine ⟨?_, ?_⟩
    · simp only [ProgressiveWebMStatusEnricher.Enrich, NewProgressiveWebMStatusEnricher,
        hnone (n + 1) le_rfl]
    · intro fuel r hE
      simp only [ProgressiveWebMStatusEnricher.Enrich, NewProgressiveWebMStatusEnricher] at hE
      by_cases hf : fuel ≤ n + 1
      · simp [hnone fuel hf] at hE
      · obtain ⟨f, rfl⟩ : ∃ f, fuel = (n + 1) + (f + 1) := ⟨fuel - (n + 2), by omega⟩
        rw [drain_afterPages api s.ProviderJobID (f + 1) (n + 1) _ _ hn2] at hE
        rcases hnext : api.List w1 s.ProviderJobID
            { Offset := toInt32 st.muxings.length, Limit := 100 } with ⟨res, w2⟩
        cases res with
        | error e2 =>
          simp only [drain, drainStep, hbelow, if_true, hnext, Option.some.injEq] at hE
          rw [← hE]
          simp
        | ok resp2 =>
          simp only [drain, drainStep, hbelow, if_true, hnext, List.append_assoc,
            List.singleton_append] at hE
          rcases hd : drain api s.ProviderJobID f
            { world := w2
              totalCount := int64Value resp2.TotalCount
              muxings := st.muxings ++ resp2.Items
              calls := st.calls ++
                [Call.List s.ProviderJobID
                    { Offset := toInt32 st.muxings.length, Limit := 100 },
                  Call.List s.ProviderJobID
                    { Offset := toInt32 st.muxings.length, Limit := 100 }] } with _ | res
          · simp [hd] at hE
          · cases res with
            | error p =>
              obtain ⟨err, st1⟩ := p
              rw [hd] at hE
              simp only [Option.some.injEq] at hE
              obtain ⟨m, st3, e, w3, hm, -, -, -, hst1⟩ :=
                drain_error_inv api s.ProviderJobID f _ st1 err hd
              obtain ⟨cs, hcs, -, -⟩ := afterPages_calls api s.ProviderJobID m _ st3 hm
              rw [← hE, hst1]
              simp only [hcs, List.append_assoc, List.singleton_append]
              rw [← List.append_assoc]
              exact List.prefix_append _ _
            | ok st1 =>
              rw [hd] at hE
              simp only [Option.some.injEq] at hE
              obtain ⟨m, hm, -⟩ := drain_ok_inv api s.ProviderJobID f _ st1 hd
              obtain ⟨cs, hcs, -, -⟩ := afterPages_calls api s.ProviderJobID m _ st1 hm
              rw [← hE]
              refine List.IsPrefix.trans ?_ (enrichLoop_keeps_calls api _ _ _ _)
              simp only [hcs, List.append_assoc, List.singleton_append]
              rw [← List.append_assoc]
              exact List.prefix_append _ _

/-- Witness of C3 amended: a scripted remote whose first request fails; the
paged remote, which makes progress; a scripted remote whose first page is
empty below the total and is asked again at the same offset. -/
theorem Enrich_terminates_when_pages_progress_witness :
    ((∃ (n : Nat) (st : DrainState (List (Except GoError Pagination))) (e : GoError)
        (w1 : List (Except GoError Pagination)),
        afterPages (scriptedApi sampleInfo) sampleStatus.ProviderJobID n
          { world := [.error (.base "timeout")], totalCount := 1, muxings := [], calls := [] } =
            some st ∧
        (st.muxings.length : Int) < st.totalCount ∧
        (scriptedApi sampleInfo).List st.world sampleStatus.ProviderJobID
          { Offset := toInt32 st.muxings.length, Limit := 100 } = (.error e, w1) ∧
        (some (GoError.wrap (.base "timeout")
            "retrieving progressive webm muxings from the Bitmovin API")) =
          some (.wrap e "retrieving progressive webm muxings from the Bitmovin API") ∧
        sampleStatus = sampleStatus) ∨
      (∃ (n : Nat) (st : DrainState (List (Except GoError Pagination))),
        afterPages (scriptedApi sampleInfo) sampleStatus.ProviderJobID n
          { world := [.error (.base "timeout")], totalCount := 1, muxings := [], calls := [] } =
            some st ∧
        st.totalCount ≤ (st.muxings.length : Int) ∧
        ({ status := sampleStatus
           err := some (.wrap (.base "timeout")
             "retrieving progressive webm muxings from the Bitmovin API")
           world := []
           calls := [Call.List "job-1" { Offset := 0, Limit := 100 }] } :
          EnrichResult (List (Except GoError Pagination))) =
          enrichLoop (scriptedApi sampleInfo) st.muxings st.world sampleStatus st.calls)) ∧
    (∃ r, (NewProgressiveWebMStatusEnricher (pagedApi sampleMuxings 2 sampleInfo)).Enrich
      4 () sampleStatus = some r) ∧
    ((NewProgressiveWebMStatusEnricher (scriptedApi sampleInfo)).Enrich 1
        [.ok { TotalCount := some 1, Items := [] },
          .ok { TotalCount := some 1, Items := [{ Id := "m1", Filename := "a.webm" }] }]
        sampleStatus = none ∧
      [Call.List "job-1" { Offset := 0, Limit := 100 },
          Call.List "job-1" { Offset := 0, Limit := 100 }] <+:
        [Call.List "job-1" { Offset := 0, Limit := 100 },
          Call.List "job-1" { Offset := 0, Limit := 100 },
          Call.InformationGet "job-1" "m1"]) :=
  ⟨(Enrich_terminates_when_pages_progress (scriptedApi sampleInfo)
      [.error (.base "timeout")] sampleStatus).1 1
      { status := sampleStatus
        err := some (.wrap (.base "timeout")
          "retrieving progressive webm muxings from the Bitmovin API")
        world := []
        calls := [Call.List "job-1" { Offset := 0, Limit := 100 }] } rfl,
    (Enrich_terminates_when_pages_progress (pagedApi sampleMuxings 2 sampleInfo) ()
      sampleStatus).2.1 3 4
      (fun n st resp w1 _ _ h => by
        simp only [pagedApi, Prod.mk.injEq, Except.ok.injEq] at h
        obtain ⟨rfl, -⟩ := h
        refine ⟨by simp [int64Value, sampleMuxings], ?_⟩
        intro hI
        have h2 := toInt32_le_self st.muxings.length
        generalize toInt32 (st.muxings.length : Int) = o at hI h2
        have h1 : 3 ≤ o.toNat := by
          simpa [List.take_eq_nil_iff, List.drop_eq_nil_iff, sampleMuxings] using hI
        simp only [int64Value, sampleMuxings, List.length_cons, List.length_nil]
        omega)
      (by decide),
    ((Enrich_terminates_when_pages_progress (scriptedApi sampleInfo)
      [.ok { TotalCount := some 1, Items := [] },
        .ok { TotalCount := some 1, Items := [{ Id := "m1", Filename := "a.webm" }] }]
      sampleStatus).2.2 0
      { world := [.ok { TotalCount := some 1, Items := [] },
          .ok { TotalCount := some 1, Items := [{ Id := "m1", Filename := "a.webm" }] }]
        totalCount := 1, muxings := [], calls := [] }
      { TotalCount := some 1, Items := [] }
      [.ok { TotalCount := some 1, Items := [{ Id := "m1", Filename := "a.webm" }] }]
      rfl (by decide) rfl rfl (by decide)).1,
    ((Enrich_terminates_when_pages_progress (scriptedApi sampleInfo)
      [.ok { TotalCount := some 1, Items := [] },
        .ok { TotalCount := some 1, Items := [{ Id := "m1", Filename := "a.webm" }] }]
      sampleStatus).2.2 0
      { world := [.ok { TotalCount := some 1, Items := [] },
          .ok { TotalCount := some 1, Items := [{ Id := "m1", Filename := "a.webm" }] }]
        totalCount := 1, muxings := [], calls := [] }
      { TotalCount := some 1, Items := [] }
      [.ok { TotalCount := some 1, Items := [{ Id := "m1", Filename := "a.webm" }] }]
      rfl (by decide) rfl rfl (by decide)).2 3
      (enrichLoop (scriptedApi sampleInfo) [{ Id := "m1", Filename := "a.webm" }] []
        sampleStatus [Call.List "job-1" { Offset := 0, Limit := 100 },
          Call.List "job-1" { Offset := 0, Limit := 100 }]) rfl⟩

/-- C4: if the first `k - 1` `List` calls succeed (each leaving the loop
running) and the `k`-th fails with `e`, then for any fuel of at least `k`,
`Enrich` returns the wrapped error, the returned status is the input `s`,
exactly `k` calls were made, all of them `List` calls, and none is an
`Information.Get` call. -/
theorem Enrich_List_failure_is_all_or_nothing {σ : Type} (api : BitmovinApi σ) (w w1 : σ)
    (s : JobStatus) (k fuel : Nat) (st : DrainState σ) (e : GoError)
    (hk : 1 ≤ k) (hfuel : k ≤ fuel)
    (hpages : afterPages api s.ProviderJobID (k - 1)
      { world := w, totalCount := 1, muxings := [], calls := [] } = some st)
    (hmore : (st.muxings.length : Int) < st.totalCount)
    (hfail : api.List st.world s.ProviderJobID
      { Offset := toInt32 st.muxings.length, Limit := 100 } = (.error e, w1)) :
    ∃ r : EnrichResult σ, (NewProgressiveWebMStatusEnricher api).Enrich fuel w s = some r ∧
      r.err = some (.wrap e "retrieving progressive webm muxings from the Bitmovin API") ∧
      r.status = s ∧ r.calls.length = k ∧
      (∀ c ∈ r.calls, ∃ params, c = Call.List s.ProviderJobID params) ∧
      (∀ job id, Call.InformationGet job id ∉ r.calls) := by
  obtain ⟨f, rfl⟩ : ∃ f, fuel = (k - 1) + (f + 1) := ⟨fuel - k, by omega⟩
  obtain ⟨cs, hcs, hlen, hall⟩ := afterPages_calls api s.ProviderJobID (k - 1) _ st hpages
  have hE : (NewProgressiveWebMStatusEnricher api).Enrich ((k - 1) + (f + 1)) w s = some
      { status := s
        err := some (.wrap e "retrieving progressive webm muxings from the Bitmovin API")
        world := w1
        calls := st.calls ++ [Call.List s.ProviderJobID
          { Offset := toInt32 st.muxings.length, Limit := 100 }] } := by
    simp only [ProgressiveWebMStatusEnricher.Enrich, NewProgressiveWebMStatusEnricher]
    rw [drain_afterPages api s.ProviderJobID (f + 1) (k - 1) _ st hpages]
    simp only [drain, drainStep, hmore, if_true, hfail]
  have hmem : ∀ c ∈ st.calls ++ [Call.List s.ProviderJobID
      { Offset := toInt32 st.muxings.length, Limit := 100 }],
      ∃ params, c = Call.List s.ProviderJobID params := by
    intro c hc
    rcases List.mem_append.mp hc with hc | hc
    · rw [hcs] at hc
      exact hall c (by simpa using hc)
    · exact ⟨_, List.mem_singleton.mp hc⟩
  refine ⟨_, hE, rfl, rfl, ?_, hmem, ?_⟩
  · simp only [hcs, List.nil_append, List.length_append, hlen, List.length_singleton]
    omega
  · intro job id hc
    obtain ⟨params, hp⟩ := hmem _ hc
    cases hp

/-- Witness of C4: the first page of a scripted remote arrives, the second
request fails. -/
theorem Enrich_List_failure_is_all_or_nothing_witness :
    ∃ r : EnrichResult (List (Except GoError Pagination)),
      (NewProgressiveWebMStatusEnricher (scriptedApi sampleInfo)).Enrich 2
        [.ok { TotalCount := some 3, Items := [{ Id := "m1", Filename := "a.webm" }] },
          .error (.base "timeout")] sampleStatus = some r ∧
      r.err = some (.wrap (.base "timeout")
        "retrieving progressive webm muxings from the Bitmovin API") ∧
      r.status = sampleStatus ∧ r.calls.length = 2 ∧
      (∀ c ∈ r.calls, ∃ params, c = Call.List sampleStatus.ProviderJobID params) ∧
      (∀ job id, Call.InformationGet job id ∉ r.calls) :=
  Enrich_List_failure_is_all_or_nothing (scriptedApi sampleInfo)
    [.ok { TotalCount := some 3, Items := [{ Id := "m1", Filename := "a.webm" }] },
      .error (.base "timeout")] [] sampleStatus 2 2
    { world := [.error (.base "timeout")], totalCount := 3
      muxings := [{ Id := "m1", Filename := "a.webm" }]
      calls := [Call.List "job-1" { Offset := 0, Limit := 100 }] }
    (.base "timeout") (by decide) (by decide) rfl (by decide) rfl

/-- C9: when `Enrich` has collected the muxings `pre ++ muxing :: post`, the
information requests for `pre` succeed and the one for `muxing` returns
`info`, `Enrich` returns, the files it returns are the input files, one file
per muxing of `pre`, then the file `f` of `muxing`, then the files of later
muxings, and an error, if any, is the failed request of a later muxing (none
when `muxing` is the last).  `f` has the path, container and size of the
muxing; with no video track in `info` it has `Width = 0`, `Height = 0` and
`VideoCodec = ""`, otherwise the three come from the first track alone. -/
theorem Enrich_muxing_without_video_is_not_an_error {σ : Type} (api : BitmovinApi σ)
    (fuel : Nat) (w w1 : σ) (s : JobStatus) (st : DrainState σ)
    (pre post : List ProgressiveWebmMuxing) (muxing : ProgressiveWebmMuxing)
    (info : ProgressiveWebmMuxingInformation)
    (hdrain : drain api s.ProviderJobID fuel
      { world := w, totalCount := 1, muxings := [], calls := [] } = some (.ok st))
    (hmux : st.muxings = pre ++ muxing :: post)
    (hpre : (enrichLoop api pre st.world s st.calls).err = none)
    (hGet : api.InformationGet (enrichLoop api pre st.world s st.calls).world
      s.ProviderJobID muxing.Id = (.ok info, w1)) :
    ∃ (r : EnrichResult σ) (f : OutputFile) (before after : List OutputFile),
      (NewProgressiveWebMStatusEnricher api).Enrich fuel w s = some r ∧
      before.length = pre.length ∧ after.length ≤ post.length ∧
      r.status.Output.Files = s.Output.Files ++ before ++ f :: after ∧
      (r.err = none ∨ ∃ m ∈ post, ∃ e, r.err =
        some (.wrapf e "retrieving muxing information with ID %q" [m.Id])) ∧
      (post = [] → r.err = none) ∧
      f.Path = s.Output.Destination ++ muxing.Filename ∧
      f.Container = info.ContainerFormat ∧ f.FileSize = int64Value info.FileSize ∧
      (info.VideoTracks = [] → f.Width = 0 ∧ f.Height = 0 ∧ f.VideoCodec = "") ∧
      (∀ track tracks, info.VideoTracks = track :: tracks →
        f.Width = dimensionToInt64 track.FrameWidth ∧
        f.Height = dimensionToInt64 track.FrameHeight ∧
        f.VideoCodec = track.Codec) := by
  obtain ⟨infos, hlen, -, hst, -⟩ := enrichLoop_of_ok api pre st.world s st.calls hpre
  have hjob : (enrichLoop api pre st.world s st.calls).status.ProviderJobID = s.ProviderJobID := by
    rw [hst]
  have hdest : (enrichLoop api pre st.world s st.calls).status.Output.Destination =
      s.Output.Destination := by
    rw [hst]
  have hfiles : (enrichLoop api pre st.world s st.calls).status.Output.Files =
      s.Output.Files ++ List.zipWith (outputFile s.Output.Destination) pre infos := by
    rw [hst]
  obtain ⟨more, hmore, hext, herr⟩ := enrichLoop_extends api post w1
    { (enrichLoop api pre st.world s st.calls).status with
      Output := { (enrichLoop api pre st.world s st.calls).status.Output with
        Files := (enrichLoop api pre st.world s st.calls).status.Output.Files ++
          [outputFile s.Output.Destination muxing info] } }
    ((enrichLoop api pre st.world s st.calls).calls ++
      [Call.InformationGet s.ProviderJobID muxing.Id])
  have hE : (NewProgressiveWebMStatusEnricher api).Enrich fuel w s = some
      (enrichLoop api post w1
        { (enrichLoop api pre st.world s st.calls).status with
          Output := { (enrichLoop api pre st.world s st.calls).status.Output with
            Files := (enrichLoop api pre st.world s st.calls).status.Output.Files ++
              [outputFile s.Output.Destination muxing info] } }
        ((enrichLoop api pre st.world s st.calls).calls ++
          [Call.InformationGet s.ProviderJobID muxing.Id])) := by
    simp only [ProgressiveWebMStatusEnricher.Enrich, NewProgressiveWebMStatusEnricher, hdrain,
      hmux]
    rw [enrichLoop_append_of_ok api (muxing :: post) pre st.world s st.calls hpre]
    simp only [enrichLoop, hjob, hGet, hdest]
  refine ⟨_, outputFile s.Output.Destination muxing info,
    List.zipWith (outputFile s.Output.Destination) pre infos, more, hE, ?_, hmore, ?_, herr,
    ?_, rfl, rfl, rfl, ?_, ?_⟩
  · simp only [List.length_zipWith, hlen, min_self]
  · rw [hext]
    simp only [hfiles, List.append_assoc, List.singleton_append]
  · intro hpost
    subst hpost
    rcases herr with herr | ⟨m, hm, -⟩
    · exact herr
    · simp at hm
  · intro h
    simp [outputFile, h]
  · intro track tracks h
    simp [outputFile, h]

/-- Witness of C9: of three collected muxings the second is audio-only and
the first has two video tracks. -/
theorem Enrich_muxing_without_video_is_not_an_error_witness :
    (∃ (r : EnrichResult Unit) (f : OutputFile) (before after : List OutputFile),
      (NewProgressiveWebMStatusEnricher (pagedApi sampleMuxings 100 sampleMixedInfo)).Enrich
        2 () sampleStatus = some r ∧
      before.length = 1 ∧ after.length ≤ 1 ∧
      r.status.Output.Files = sampleStatus.Output.Files ++ before ++ f :: after ∧
      (r.err = none ∨ ∃ m ∈ [({ Id := "m3", Filename := "c.webm" } : ProgressiveWebmMuxing)],
        ∃ e, r.err = some (.wrapf e "retrieving muxing information with ID %q" [m.Id])) ∧
      f.Path = "s3://bucket/out/b.webm" ∧
      f.Width = 0 ∧ f.Height = 0 ∧ f.VideoCodec = "") ∧
    (∃ (r : EnrichResult Unit) (f : OutputFile) (before after : List OutputFile),
      (NewProgressiveWebMStatusEnricher (pagedApi sampleMuxings 100 sampleMixedInfo)).Enrich
        2 () sampleStatus = some r ∧
      before.length = 0 ∧ after.length ≤ 2 ∧
      r.status.Output.Files = sampleStatus.Output.Files ++ before ++ f :: after ∧
      f.Path = "s3://bucket/out/a.webm" ∧
      f.Width = 1920 ∧ f.Height = 1080 ∧ f.VideoCodec = "vp9") := by
  obtain ⟨r, f, before, after, hE, hb, ha, hfiles, herr, -, hpath, -, -, hnone, -⟩ :=
    Enrich_muxing_without_video_is_not_an_error
      (pagedApi sampleMuxings 100 sampleMixedInfo) 2 () () sampleStatus
      { world := (), totalCount := 3, muxings := sampleMuxings
        calls := [Call.List "job-1" { Offset := 0, Limit := 100 }] }
      [{ Id := "m1", Filename := "a.webm" }] [{ Id := "m3", Filename := "c.webm" }]
      { Id := "m2", Filename := "b.webm" } (sampleMixedInfo "m2") rfl rfl rfl rfl
  obtain ⟨r2, f2, before2, after2, hE2, hb2, ha2, hfiles2, -, -, hpath2, -, -, -, hsome⟩ :=
    Enrich_muxing_without_video_is_not_an_error
      (pagedApi sampleMuxings 100 sampleMixedInfo) 2 () () sampleStatus
      { world := (), totalCount := 3, muxings := sampleMuxings
        calls := [Call.List "job-1" { Offset := 0, Limit := 100 }] }
      [] [{ Id := "m2", Filename := "b.webm" }, { Id := "m3", Filename := "c.webm" }]
      { Id := "m1", Filename := "a.webm" } (sampleMixedInfo "m1") rfl rfl rfl rfl
  obtain ⟨hw, hh, hc⟩ := hnone rfl
  obtain ⟨hw2, hh2, hc2⟩ := hsome
    { FrameHeight := some 1080, FrameWidth := some 1920, Codec := "vp9" }
    [{ FrameHeight := some 360, FrameWidth := some 640, Codec := "vp8" }] rfl
  exact ⟨⟨r, f, before, after, hE, hb, ha, hfiles, herr, hpath, hw, hh, hc⟩,
    ⟨r2, f2, before2, after2, hE2, hb2, ha2, hfiles2, hpath2, hw2, hh2, hc2⟩⟩

end container

/-! ## Claims on the H264 configuration service -/

namespace configuration

/-- C5: if `codec.NewH264` fails with `e`, `Create` returns `("", e)`, its
only call is that remote call (so `CreatePresetSummary` is not called) and
the store is left as it was.  In every run, either the store was not written
at all, or `CreatePresetSummary` was called once, after `codec.NewH264` had
returned a configuration ID without error, with that ID in the summary. -/
theorem Create_remote_failure_writes_nothing {ρ δ : Type} (c : H264 ρ δ) (preset : Preset)
    (w : World ρ δ) :
    (∀ (e : GoError) (r1 : ρ), c.api.NewH264 w.remote preset = (.error e, r1) →
      (c.Create preset w).1 = ("", some e) ∧
      (c.Create preset w).2.store = w.store ∧
      (c.Create preset w).2.calls = w.calls ++ [Call.NewH264 preset] ∧
      (∀ summary, Call.CreatePresetSummary summary ∈ (c.Create preset w).2.calls →
        Call.CreatePresetSummary summary ∈ w.calls)) ∧
    (((c.Create preset w).2.store = w.store ∧
        (c.Create preset w).2.calls = w.calls ++ [Call.NewH264 preset]) ∨
      ∃ (vidCfgID : String) (r1 : ρ) (summary : PresetSummary),
        c.api.NewH264 w.remote preset = (.ok vidCfgID, r1) ∧
        summary.VideoConfigID = vidCfgID ∧
        (c.Create preset w).2.store = (c.repo.CreatePresetSummary w.store summary).2 ∧
        (c.Create preset w).2.calls =
          w.calls ++ [Call.NewH264 preset, Call.CreatePresetSummary summary]) := by
  constructor
  · intro e r1 h
    refine ⟨?_, ?_, ?_, ?_⟩
    · simp only [H264.Create, h]
    · simp only [H264.Create, h]
    · simp only [H264.Create, h]
    · intro summary hmem
      simp only [H264.Create, h, List.mem_append, List.mem_singleton] at hmem
      rcases hmem with hmem | hmem
      · exact hmem
      · cases hmem
  · rcases hnew : c.api.NewH264 w.remote preset with ⟨res, r1⟩
    cases res with
    | error e => left; simp only [H264.Create, hnew, and_self]
    | ok vidCfgID =>
      right
      refine ⟨vidCfgID, r1,
        { Name := preset.Name, Container := preset.Container
          VideoCodec := CodecConfigType_H264, VideoConfigID := vidCfgID
          AudioCodec := "", AudioConfigID := "" }, rfl, rfl, ?_⟩
      rcases hput : c.repo.CreatePresetSummary w.store
        { Name := preset.Name, Container := preset.Container
          VideoCodec := CodecConfigType_H264, VideoConfigID := vidCfgID
          AudioCodec := "", AudioConfigID := "" } with ⟨err, d1⟩
      cases err with
      | none => simp only [H264.Create, hnew, hput, and_self]
      | some err => simp only [H264.Create, hnew, hput, and_self]

/-- Witness of C5: the remote is down, the store holds one summary. -/
theorem Create_remote_failure_writes_nothing_witness :
    (({ api := countingApi false, repo := listRepo } : H264 Nat (List PresetSummary)).Create
        samplePreset { remote := 0, store := [sampleSummary], calls := [] }).1 =
      ("", some (.base "remote unavailable")) ∧
    (({ api := countingApi false, repo := listRepo } : H264 Nat (List PresetSummary)).Create
        samplePreset { remote := 0, store := [sampleSummary], calls := [] }).2.store =
      [sampleSummary] ∧
    (({ api := countingApi false, repo := listRepo } : H264 Nat (List PresetSummary)).Create
        samplePreset { remote := 0, store := [sampleSummary], calls := [] }).2.calls =
      [] ++ [Call.NewH264 samplePreset] ∧
    (∀ summary, Call.CreatePresetSummary summary ∈
        (({ api := countingApi false, repo := listRepo } :
          H264 Nat (List PresetSummary)).Create
          samplePreset { remote := 0, store := [sampleSummary], calls := [] }).2.calls →
      Call.CreatePresetSummary summary ∈ ([] : List Call)) :=
  (Create_remote_failure_writes_nothing
    ({ api := countingApi false, repo := listRepo } : H264 Nat (List PresetSummary))
    samplePreset { remote := 0, store := [sampleSummary], calls := [] }).1
    (.base "remote unavailable") 0 rfl

/-- C6: if the summary of `presetName` is in the store and the remote delete
of its video configuration fails with `e`, `Delete` returns `e` wrapped with
"removing the video config", calls the store only to look the summary up
(no `DeletePresetSummary` call), leaves the store as it was, and a following
`Get` returns the same summary as before. -/
theorem Delete_remote_failure_is_retry_safe {ρ δ : Type} (c : H264 ρ δ) (presetName : String)
    (w : World ρ δ) (summary : PresetSummary) (e : GoError) (r1 : ρ)
    (hget : c.repo.GetPresetSummary w.store presetName = .ok summary)
    (hfail : c.api.H264Delete w.remote summary.VideoConfigID = (some e, r1)) :
    (c.Delete presetName w).1 = some (.wrap e "removing the video config") ∧
    (c.Delete presetName w).2.store = w.store ∧
    (c.Delete presetName w).2.calls = w.calls ++
      [Call.GetPresetSummary presetName, Call.H264Delete summary.VideoConfigID] ∧
    (∀ name, Call.DeletePresetSummary name ∈ (c.Delete presetName w).2.calls →
      Call.DeletePresetSummary name ∈ w.calls) ∧
    (c.Get presetName w).1 = .ok summary ∧
    (c.Get presetName (c.Delete presetName w).2).1 = .ok summary := by
  have hD : c.Delete presetName w = (some (.wrap e "removing the video config"),
      { remote := r1, store := w.store
        calls := w.calls ++
          [Call.GetPresetSummary presetName, Call.H264Delete summary.VideoConfigID] }) := by
    simp only [H264.Delete, H264.Get, hget, hfail, List.append_assoc, List.singleton_append]
  refine ⟨by rw [hD], by rw [hD], by rw [hD], ?_, ?_, ?_⟩
  · intro name hmem
    rw [hD] at hmem
    simp only [List.mem_append, List.mem_cons, List.mem_singleton] at hmem
    rcases hmem with hmem | hmem | hmem | hmem
    · exact hmem
    · cases hmem
    · cases hmem
    · simp at hmem
  · simp only [H264.Get, hget]
  · rw [hD]
    simp only [H264.Get, hget]

/-- Witness of C6: the remote is down, the summary stays retrievable. -/
theorem Delete_remote_failure_is_retry_safe_witness :
    (({ api := countingApi false, repo := listRepo } : H264 Nat (List PresetSummary)).Delete
        "webm_720p" { remote := 0, store := [sampleSummary], calls := [] }).1 =
      some (.wrap (.base "remote unavailable") "removing the video config") ∧
    (({ api := countingApi false, repo := listRepo } : H264 Nat (List PresetSummary)).Delete
        "webm_720p" { remote := 0, store := [sampleSummary], calls := [] }).2.store =
      [sampleSummary] ∧
    (({ api := countingApi false, repo := listRepo } : H264 Nat (List PresetSummary)).Delete
        "webm_720p" { remote := 0, store := [sampleSummary], calls := [] }).2.calls =
      [] ++ [Call.GetPresetSummary "webm_720p", Call.H264Delete sampleSummary.VideoConfigID] ∧
    (∀ name, Call.DeletePresetSummary name ∈
        (({ api := countingApi false, repo := listRepo } :
          H264 Nat (List PresetSummary)).Delete
          "webm_720p" { remote := 0, store := [sampleSummary], calls := [] }).2.calls →
      Call.DeletePresetSummary name ∈ ([] : List Call)) ∧
    (({ api := countingApi false, repo := listRepo } : H264 Nat (List PresetSummary)).Get
        "webm_720p" { remote := 0, store := [sampleSummary], calls := [] }).1 =
      .ok sampleSummary ∧
    (({ api := countingApi false, repo := listRepo } : H264 Nat (List PresetSummary)).Get
        "webm_720p"
        (({ api := countingApi false, repo := listRepo } :
          H264 Nat (List PresetSummary)).Delete
          "webm_720p" { remote := 0, store := [sampleSummary], calls := [] }).2).1 =
      .ok sampleSummary :=
  Delete_remote_failure_is_retry_safe
    ({ api := countingApi false, repo := listRepo } : H264 Nat (List PresetSummary))
    "webm_720p" { remote := 0, store := [sampleSummary], calls := [] } sampleSummary
    (.base "remote unavailable") 0 rfl rfl


/-- C7: over a store whose lookup returns the summary last stored without
error under a name, if the remote create returns the configuration ID `v`
and the store write succeeds, `Create` returns `(preset.Name, nil)` and a
following `Get preset.Name` returns a summary with the preset's name and
container, video codec `H264` and video configuration ID `v`. -/
theorem Create_then_Get_returns_remote_ids {ρ δ : Type} (c : H264 ρ δ) (preset : Preset)
    (w : World ρ δ) (v : String) (r1 : ρ) (d1 : δ)
    (hstore : ∀ (d : δ) (summary : PresetSummary) (d2 : δ),
      c.repo.CreatePresetSummary d summary = (none, d2) →
      c.repo.GetPresetSummary d2 summary.Name = .ok summary)
    (hnew : c.api.NewH264 w.remote preset = (.ok v, r1))
    (hput : c.repo.CreatePresetSummary w.store
      { Name := preset.Name, Container := preset.Container
        VideoCodec := CodecConfigType_H264, VideoConfigID := v
        AudioCodec := "", AudioConfigID := "" } = (none, d1)) :
    (c.Create preset w).1 = (preset.Name, none) ∧
    ∃ summary : PresetSummary,
      (c.Get preset.Name (c.Create preset w).2).1 = .ok summary ∧
      summary.Name = preset.Name ∧ summary.Container = preset.Container ∧
      summary.VideoCodec = "H264" ∧ summary.VideoConfigID = v := by
  have hC : c.Create preset w = ((preset.Name, none),
      { remote := r1, store := d1
        calls := w.calls ++ [Call.NewH264 preset, Call.CreatePresetSummary
          { Name := preset.Name, Container := preset.Container
            VideoCodec := CodecConfigType_H264, VideoConfigID := v
            AudioCodec := "", AudioConfigID := "" }] }) := by
    simp only [H264.Create, hnew, hput]
  refine ⟨by rw [hC],
    { Name := preset.Name, Container := preset.Container
      VideoCodec := CodecConfigType_H264, VideoConfigID := v
      AudioCodec := "", AudioConfigID := "" }, ?_, rfl, rfl, rfl, rfl⟩
  rw [hC]
  exact hstore _ _ _ hput

/-- Witness of C7: an empty list store and a remote that is up. -/
theorem Create_then_Get_returns_remote_ids_witness :
    (({ api := countingApi true, repo := listRepo } : H264 Nat (List PresetSummary)).Create
        samplePreset { remote := 7, store := [], calls := [] }).1 = ("webm_720p", none) ∧
    ∃ summary : PresetSummary,
      (({ api := countingApi true, repo := listRepo } : H264 Nat (List PresetSummary)).Get
        "webm_720p"
        (({ api := countingApi true, repo := listRepo } :
          H264 Nat (List PresetSummary)).Create
          samplePreset { remote := 7, store := [], calls := [] }).2).1 = .ok summary ∧
      summary.Name = "webm_720p" ∧ summary.Container = "webm" ∧
      summary.VideoCodec = "H264" ∧ summary.VideoConfigID = "7" :=
  Create_then_Get_returns_remote_ids
    ({ api := countingApi true, repo := listRepo } : H264 Nat (List PresetSummary))
    samplePreset { remote := 7, store := [], calls := [] } "7" 8
    [{ Name := "webm_720p", Container := "webm", VideoCodec := "H264", VideoConfigID := "7"
       AudioCodec := "", AudioConfigID := "" }]
    (fun d summary d2 h => by
      simp only [listRepo, Prod.mk.injEq, true_and] at h
      subst h
      simp [listRepo])
    rfl rfl

/-- C8: over a store that reports `notFound` for a name once its record was
deleted without error, if the summary of `presetName` is in the store and
both the remote delete of its video configuration and the local delete
succeed, `Delete` returns `nil`; the remote is left in the state the delete
of the stored `VideoConfigID` produced and the store in the state the local
delete produced; the calls are the lookup, the remote delete with the stored
`VideoConfigID`, then `DeletePresetSummary`; a following `Get` fails with
`notFound`.  The remote delete comes first: from any state in which it fails
instead, the store is left untouched. -/
theorem Delete_then_Get_is_not_found {ρ δ : Type} (c : H264 ρ δ) (presetName : String)
    (w : World ρ δ) (summary : PresetSummary) (notFound : GoError) (r1 : ρ) (d1 : δ)
    (hstore : ∀ (d : δ) (name : String) (d2 : δ),
      c.repo.DeletePresetSummary d name = (none, d2) →
      c.repo.GetPresetSummary d2 name = .error notFound)
    (hget : c.repo.GetPresetSummary w.store presetName = .ok summary)
    (hremote : c.api.H264Delete w.remote summary.VideoConfigID = (none, r1))
    (hlocal : c.repo.DeletePresetSummary w.store presetName = (none, d1)) :
    (c.Delete presetName w).1 = none ∧
    (c.Delete presetName w).2.calls = w.calls ++
      [Call.GetPresetSummary presetName, Call.H264Delete summary.VideoConfigID,
        Call.DeletePresetSummary presetName] ∧
    (c.Delete presetName w).2.store = d1 ∧
    (c.Get presetName (c.Delete presetName w).2).1 = .error notFound ∧
    (c.Delete presetName w).2.remote = r1 ∧
    (c.Delete presetName w).2.remote =
      (c.api.H264Delete w.remote summary.VideoConfigID).2 ∧
    (∀ (w2 : World ρ δ) (summary2 : PresetSummary) (e : GoError) (r2 : ρ),
      c.repo.GetPresetSummary w2.store presetName = .ok summary2 →
      c.api.H264Delete w2.remote summary2.VideoConfigID = (some e, r2) →
      (c.Delete presetName w2).2.store = w2.store ∧
      (c.Delete presetName w2).2.remote = r2 ∧
      (c.Delete presetName w2).1 = some (.wrap e "removing the video config")) := by
  have hD : c.Delete presetName w = (none,
      { remote := r1, store := d1
        calls := w.calls ++
          [Call.GetPresetSummary presetName, Call.H264Delete summary.VideoConfigID,
            Call.DeletePresetSummary presetName] }) := by
    simp only [H264.Delete, H264.Get, hget, hremote, hlocal, List.append_assoc,
      List.singleton_append]
  refine ⟨by rw [hD], by rw [hD], by rw [hD], ?_, by rw [hD], by rw [hD, hremote], ?_⟩
  · rw [hD]
    exact hstore _ _ _ hlocal
  · intro w2 summary2 e r2 hget2 hfail2
    simp only [H264.Delete, H264.Get, hget2, hfail2, and_self]

/-- Witness of C8: the list store holds the summary and the remote ledger
holds its configuration; afterwards both are empty. -/
theorem Delete_then_Get_is_not_found_witness :
    (({ api := ledgerApi, repo := listRepo } : H264 (List String) (List PresetSummary)).Delete
        "webm_720p" { remote := ["7"], store := [sampleSummary], calls := [] }).1 = none ∧
    (({ api := ledgerApi, repo := listRepo } : H264 (List String) (List PresetSummary)).Delete
        "webm_720p" { remote := ["7"], store := [sampleSummary], calls := [] }).2.calls =
      [] ++ [Call.GetPresetSummary "webm_720p", Call.H264Delete sampleSummary.VideoConfigID,
        Call.DeletePresetSummary "webm_720p"] ∧
    (({ api := ledgerApi, repo := listRepo } : H264 (List String) (List PresetSummary)).Delete
        "webm_720p" { remote := ["7"], store := [sampleSummary], calls := [] }).2.store = [] ∧
    (({ api := ledgerApi, repo := listRepo } : H264 (List String) (List PresetSummary)).Get
        "webm_720p"
        (({ api := ledgerApi, repo := listRepo } :
          H264 (List String) (List PresetSummary)).Delete
          "webm_720p" { remote := ["7"], store := [sampleSummary], calls := [] }).2).1 =
      .error ErrPresetSummaryNotFound ∧
    (({ api := ledgerApi, repo := listRepo } : H264 (List String) (List PresetSummary)).Delete
        "webm_720p" { remote := ["7"], store := [sampleSummary], calls := [] }).2.remote = [] ∧
    (({ api := ledgerApi, repo := listRepo } : H264 (List String) (List PresetSummary)).Delete
        "webm_720p" { remote := [], store := [sampleSummary], calls := [] }).2.store =
      [sampleSummary] := by
  have h := Delete_then_Get_is_not_found
    ({ api := ledgerApi, repo := listRepo } : H264 (List String) (List PresetSummary))
    "webm_720p" { remote := ["7"], store := [sampleSummary], calls := [] } sampleSummary
    ErrPresetSummaryNotFound [] []
    (fun d name d2 h => by
      simp only [listRepo] at h ⊢
      split at h
      · simp only [Prod.mk.injEq, true_and] at h
        subst h
        have hnone : List.find? (fun x => x.Name == name)
            (List.filter (fun x => x.Name != name) d) = none := by
          rw [List.find?_eq_none]
          intro x hx
          simp only [List.mem_filter] at hx
          simpa using hx.2
        rw [hnone]
      · simp at h)
    rfl (by decide) rfl
  exact ⟨h.1, h.2.1, h.2.2.1, h.2.2.2.1, h.2.2.2.2.1,
    (h.2.2.2.2.2.2 { remote := [], store := [sampleSummary], calls := [] } sampleSummary
      (.base "no such configuration") [] rfl (by decide)).1⟩

end configuration

/-! ## Claims on the service boundary -/

namespace service

/-- C10: when the wrapped endpoint returns an error, `JSONMiddleware` answers
with status 503, a nil body and a `jsonErr` whose message is exactly
"sorry, this service is unavailable", so any two failing runs, whatever their
endpoints, requests, errors, statuses and bodies, give the same response;
when the endpoint returns no error its status and body are passed on
unchanged with a nil error. -/
theorem JSONMiddleware_hides_error_detail {Req β ω : Type} (s : JSONService Req ω) :
    (∀ (j : JSONEndpoint Req β ω) (r : Req) (w w1 : ω) (status : Int) (res : Option β)
        (err : EndpointError), j r w = ((status, res, some err), w1) →
      (s.JSONMiddleware j r w).1 =
        (503, none, some (.json { Err := "sorry, this service is unavailable" })) ∧
      ∃ e : jsonErr, (s.JSONMiddleware j r w).1.2.2 = some (.json e) ∧
        e.Error = "sorry, this service is unavailable") ∧
    (∀ (j1 j2 : JSONEndpoint Req β ω) (r1 r2 : Req) (w1 w2 v1 v2 : ω) (status1 status2 : Int)
        (res1 res2 : Option β) (err1 err2 : EndpointError),
      j1 r1 w1 = ((status1, res1, some err1), v1) →
      j2 r2 w2 = ((status2, res2, some err2), v2) →
      (s.JSONMiddleware j1 r1 w1).1 = (s.JSONMiddleware j2 r2 w2).1) ∧
    (∀ (j : JSONEndpoint Req β ω) (r : Req) (w w1 : ω) (status : Int) (res : Option β),
      j r w = ((status, res, none), w1) →
      (s.JSONMiddleware j r w).1 = (status, res, none)) := by
  refine ⟨?_, ?_, ?_⟩
  · intro j r w w1 status res err h
    have hM : (s.JSONMiddleware j r w).1 =
        (503, none, some (.json { Err := "sorry, this service is unavailable" })) := by
      simp only [JSONService.JSONMiddleware, h, StatusServiceUnavailable]
    exact ⟨hM, _, by rw [hM], rfl⟩
  · intro j1 j2 r1 r2 w1 w2 v1 v2 status1 status2 res1 res2 err1 err2 h1 h2
    simp only [JSONService.JSONMiddleware, h1, h2]
  · intro j r w w1 status res h
    simp only [JSONService.JSONMiddleware, h]

/-- Witness of C10: two endpoints failing differently, and one succeeding. -/
theorem JSONMiddleware_hides_error_detail_witness :
    ((listLogService Unit).JSONMiddleware
        (failingEndpoint 500 "stack trace" "db password rejected") () []).1 =
      (503, none, some (.json { Err := "sorry, this service is unavailable" })) ∧
    ((listLogService Unit).JSONMiddleware
        (failingEndpoint 500 "stack trace" "db password rejected") () []).1 =
      ((listLogService Unit).JSONMiddleware
        (failingEndpoint 404 "no such job" "job xyz missing") () []).1 ∧
    ((listLogService Unit).JSONMiddleware (succeedingEndpoint 200 "done") () []).1 =
      (200, some "done", none) :=
  ⟨((JSONMiddleware_hides_error_detail (listLogService Unit)).1
      (failingEndpoint 500 "stack trace" "db password rejected") () [] [] 500
      (some "stack trace") (.internal (.base "db password rejected")) rfl).1,
    (JSONMiddleware_hides_error_detail (listLogService Unit)).2.1
      (failingEndpoint 500 "stack trace" "db password rejected")
      (failingEndpoint 404 "no such job" "job xyz missing") () () [] [] [] [] 500 404
      (some "stack trace") (some "no such job") (.internal (.base "db password rejected"))
      (.internal (.base "job xyz missing")) rfl rfl,
    (JSONMiddleware_hides_error_detail (listLogService Unit)).2.2
      (succeedingEndpoint 200 "done") () [] [] 200 (some "done") rfl⟩

end service

/-! ## Claims on the status translator -/

namespace encodingcom

theorem Char_toLower_toLower (c : Char) : c.toLower.toLower = c.toLower := by
  have key : ∀ n : Nat, 65 ≤ n → n ≤ 90 → (Char.ofNat (n + 32)).toNat = n + 32 := by
    intro n h1 h2
    interval_cases n <;> rfl
  unfold Char.toLower
  by_cases h : c.toNat ≥ 65 ∧ c.toNat ≤ 90
  · simp only [h, and_self, if_true]
    have hn := key c.toNat h.1 h.2
    simp only [hn]
    rw [if_neg (by omega)]
  · simp only [h, if_false]

/-- Lower-casing a lower-cased ASCII string changes nothing. -/
theorem lowerASCII_lowerASCII (s : String) : lowerASCII (lowerASCII s) = lowerASCII s := by
  simp only [lowerASCII, List.map_map]
  congr 1
  apply List.map_congr_left
  intro c _
  exact Char_toLower_toLower c

/-- C11: for every lower-casing function `ToLower` (the one of the Go
library is one of them) and every string `s`, `statusMap` is a total function
into the five canonical statuses whose value depends on `ToLower s` alone:
`Queued` for "new", `Started` for "downloading", "ready to process",
"waiting for encoder", "processing" and "saving", `Finished` for "finished",
`Failed` for "error", and `Unknown` for every other string, "unknown"
included.  Where lower-casing is idempotent the lower-cased string has the
status of `s`, and every row of `TestJobStatusMap` that `ToLower` lower-cases
as ASCII text has its expected status. -/
theorem statusMap_total_and_case_insensitive (ToLower : String → String) (s : String) :
    (∀ t : String, ToLower t = ToLower s → statusMap ToLower t = statusMap ToLower s) ∧
    (ToLower (ToLower s) = ToLower s → statusMap ToLower (ToLower s) = statusMap ToLower s) ∧
    (ToLower s = "new" → statusMap ToLower s = .StatusQueued) ∧
    (ToLower s ∈ ["downloading", "ready to process", "waiting for encoder", "processing",
        "saving"] → statusMap ToLower s = .StatusStarted) ∧
    (ToLower s = "finished" → statusMap ToLower s = .StatusFinished) ∧
    (ToLower s = "error" → statusMap ToLower s = .StatusFailed) ∧
    (ToLower s ∉ ["new", "downloading", "ready to process", "waiting for encoder",
        "processing", "saving", "finished", "error"] →
      statusMap ToLower s = .StatusUnknown) ∧
    (∀ row ∈ testJobStatusMap, ToLower row.1 = lowerASCII row.1 →
      statusMap ToLower row.1 = row.2) := by
  refine ⟨?_, ?_, ?_, ?_, ?_, ?_, ?_, ?_⟩
  · intro t h
    simp only [statusMap, h]
  · intro h
    simp only [statusMap, h]
  · intro h
    simp only [statusMap, h]
    decide
  · intro h
    simp only [List.mem_cons, List.mem_singleton, List.not_mem_nil, or_false] at h
    rcases h with h | h | h | h | h <;> simp only [statusMap, h] <;> decide
  · intro h
    simp only [statusMap, h]
    decide
  · intro h
    simp only [statusMap, h]
    decide
  · intro h
    simp only [List.mem_cons, List.mem_singleton, List.not_mem_nil, or_false, not_or] at h
    obtain ⟨h1, h2, h3, h4, h5, h6, h7, h8⟩ := h
    by_cases h9 : ToLower s = "unknown"
    · simp only [statusMap, h9]
      decide
    · have b1 : (ToLower s == "new") = false := by simpa using h1
      have b2 : (ToLower s == "downloading") = false := by simpa using h2
      have b3 : (ToLower s == "ready to process") = false := by simpa using h3
      have b4 : (ToLower s == "waiting for encoder") = false := by simpa using h4
      have b5 : (ToLower s == "processing") = false := by simpa using h5
      have b6 : (ToLower s == "saving") = false := by simpa using h6
      have b7 : (ToLower s == "finished") = false := by simpa using h7
      have b8 : (ToLower s == "error") = false := by simpa using h8
      have b9 : (ToLower s == "unknown") = false := by simpa using h9
      simp only [statusMap, statusTable, List.lookup, b1, b2, b3, b4, b5, b6, b7, b8, b9]
  · intro row hrow hlow
    have hall : ∀ r ∈ testJobStatusMap,
        (match statusTable.lookup (lowerASCII r.1) with
          | some status => status
          | none => Status.StatusUnknown) = r.2 := by decide
    simp only [statusMap, hlow]
    exact hall row hrow

/-- Witness of C11: a mixed-case provider status under ASCII lower-casing,
its lower-cased form, and the first row of the test. -/
theorem statusMap_total_and_case_insensitive_witness :
    (lowerASCII "Ready To Process" ∈ ["downloading", "ready to process",
        "waiting for encoder", "processing", "saving"] ∧
      statusMap lowerASCII "Ready To Process" = .StatusStarted) ∧
    statusMap lowerASCII (lowerASCII "Ready To Process") =
      statusMap lowerASCII "Ready To Process" ∧
    statusMap lowerASCII ("New", Status.StatusQueued).1 = ("New", Status.StatusQueued).2 :=
  ⟨⟨by decide,
      (statusMap_total_and_case_insensitive lowerASCII "Ready To Process").2.2.2.1
        (by decide)⟩,
    (statusMap_total_and_case_insensitive lowerASCII "Ready To Process").2.1
      (lowerASCII_lowerASCII _),
    (statusMap_total_and_case_insensitive lowerASCII "Ready To Process").2.2.2.2.2.2.2
      ("New", Status.StatusQueued) (by decide) rfl⟩

end encodingcom
